import Mathlib

/-!
# GO_Bot: the chat / generative backend / queue bridge of `main.go`

A shallow embedding of `main.go`:

* the message handler registered with `sess.AddHandler` (lines 59-108),
* the consumer goroutine (lines 120-157),
* the `KafkaMessage` envelope (lines 19-22) and the consumer's local
  `Content` / `Response` types (lines 135-142),
* the parts of `encoding/json`, `encoding/base64` and `unicode/utf8` that
  `json.Marshal` and `json.Unmarshal` run for exactly these types.

Conventions.  A Go `[]byte` is a `List Nat` (every element below 256 when it
comes from the program).  A Go `string` is a Lean `String`, that is, a
sequence of Unicode scalar values: the strings of this program are the prefix
literal, channel ids decoded from gateway events and text parts decoded from
the backend's answer, and all of them are valid UTF-8.  Calls that leave the
program (backend, queue, chat, log, and the two `json.Marshal` calls of the
handler, which may return an error) are recorded, in program order, as a list
of `Call`s.

The reader of JSON texts runs on fuel; `parseValue_fuel_le` and
`parseStringBody_fuel_le` show that the fuel it is given is enough for every
input, so a text is refused only for what it contains.  `json.Unmarshal`
returns its first type error after having read the whole text; since both
callers drop the decoded value on an error, the decoders here stop at the
first one.
-/

namespace GoBot

/-! ## unicode/utf8 -/

/-- The replacement character U+FFFD (`utf8.RuneError`). -/
def runeError : Char := Char.ofNat 0xFFFD

/-- UTF-8 bytes of one rune (`utf8.AppendRune`). -/
def utf8Encode (c : Char) : List Nat :=
  let n := c.toNat
  if n < 0x80 then [n]
  else if n < 0x800 then [0xC0 + n / 64, 0x80 + n % 64]
  else if n < 0x10000 then [0xE0 + n / 4096, 0x80 + n / 64 % 64, 0x80 + n % 64]
  else [0xF0 + n / 262144, 0x80 + n / 4096 % 64, 0x80 + n / 64 % 64, 0x80 + n % 64]

/-- First rune of a byte sequence and the bytes after it (`utf8.DecodeRune`):
an invalid or truncated encoding yields U+FFFD and consumes one byte. -/
def decodeRune : List Nat → Char × List Nat
  | [] => (runeError, [])
  | b0 :: rest =>
    if b0 < 0x80 then (Char.ofNat b0, rest)
    else if 0xC2 ≤ b0 ∧ b0 ≤ 0xDF then
      match rest with
      | b1 :: r1 =>
        if 0x80 ≤ b1 ∧ b1 ≤ 0xBF then (Char.ofNat (b0 % 32 * 64 + b1 % 64), r1)
        else (runeError, rest)
      | [] => (runeError, rest)
    else if 0xE0 ≤ b0 ∧ b0 ≤ 0xEF then
      match rest with
      | b1 :: b2 :: r2 =>
        if (if b0 = 0xE0 then 0xA0 else 0x80) ≤ b1 ∧ b1 ≤ (if b0 = 0xED then 0x9F else 0xBF)
            ∧ 0x80 ≤ b2 ∧ b2 ≤ 0xBF then
          (Char.ofNat (b0 % 16 * 4096 + b1 % 64 * 64 + b2 % 64), r2)
        else (runeError, rest)
      | _ => (runeError, rest)
    else if 0xF0 ≤ b0 ∧ b0 ≤ 0xF4 then
      match rest with
      | b1 :: b2 :: b3 :: r3 =>
        if (if b0 = 0xF0 then 0x90 else 0x80) ≤ b1 ∧ b1 ≤ (if b0 = 0xF4 then 0x8F else 0xBF)
            ∧ 0x80 ≤ b2 ∧ b2 ≤ 0xBF ∧ 0x80 ≤ b3 ∧ b3 ≤ 0xBF then
          (Char.ofNat (b0 % 8 * 262144 + b1 % 64 * 4096 + b2 % 64 * 64 + b3 % 64), r3)
        else (runeError, rest)
      | _ => (runeError, rest)
    else (runeError, rest)

/-! ## encoding/base64 (`base64.StdEncoding`) -/

/-- Symbol of a six-bit value in the standard alphabet. -/
def b64Char (i : Nat) : Nat :=
  if i < 26 then 65 + i
  else if i < 52 then 97 + (i - 26)
  else if i < 62 then 48 + (i - 52)
  else if i = 62 then 43
  else 47

/-- Six-bit value of a symbol of the standard alphabet (`decodeMap`). -/
def b64Val (c : Nat) : Option Nat :=
  if 65 ≤ c ∧ c ≤ 90 then some (c - 65)
  else if 97 ≤ c ∧ c ≤ 122 then some (c - 97 + 26)
  else if 48 ≤ c ∧ c ≤ 57 then some (c - 48 + 52)
  else if c = 43 then some 62
  else if c = 47 then some 63
  else none

/-- Padded standard encoding (`EncodeToString`). -/
def b64Encode : List Nat → List Nat
  | [] => []
  | [a] => [b64Char (a / 4), b64Char (a % 4 * 16), 61, 61]
  | [a, b] => [b64Char (a / 4), b64Char (a % 4 * 16 + b / 16), b64Char (b % 16 * 4), 61]
  | a :: b :: c :: rest =>
    b64Char (a / 4) :: b64Char (a % 4 * 16 + b / 16) :: b64Char (b % 16 * 4 + c / 64)
      :: b64Char (c % 64) :: b64Encode rest

/-- Decoding of the symbols that remain once CR and LF are dropped: groups of
four symbols, padding only in the last group, nothing after the padding.  The
unused low bits of a padded group are not checked (the encoding is not strict). -/
def b64DecodeQuanta : List Nat → Option (List Nat)
  | [] => some []
  | c0 :: c1 :: c2 :: c3 :: rest =>
    match b64Val c0, b64Val c1 with
    | some v0, some v1 =>
      if c2 = 61 then
        if c3 = 61 ∧ rest = [] then some [v0 * 4 + v1 / 16] else none
      else
        match b64Val c2 with
        | none => none
        | some v2 =>
          if c3 = 61 then
            if rest = [] then some [v0 * 4 + v1 / 16, v1 % 16 * 16 + v2 / 4] else none
          else
            match b64Val c3, b64DecodeQuanta rest with
            | some v3, some out =>
              some ((v0 * 4 + v1 / 16) :: (v1 % 16 * 16 + v2 / 4) :: (v2 % 4 * 64 + v3) :: out)
            | _, _ => none
    | _, _ => none
  | _ => none

/-- Decoder of `base64.StdEncoding` (`Decode`): CR and LF are skipped
wherever they occur. -/
def b64Decode (src : List Nat) : Option (List Nat) :=
  b64DecodeQuanta (src.filter (fun c => c ≠ 10 ∧ c ≠ 13))

/-! ## encoding/json: values and their compact text -/

/-- A parsed JSON text.  A number keeps its literal. -/
inductive JVal where
  | null
  | bool (b : Bool)
  | num (raw : List Nat)
  | str (s : String)
  | arr (items : List JVal)
  | obj (members : List (String × JVal))

/-- Lower-case hexadecimal digit (`hex` of the encoder). -/
def hexDigit (n : Nat) : Nat := if n < 10 then 48 + n else 87 + n

/-- One rune of a string, as `json.Marshal` writes it (HTML escaping on, as it
is by default): `"` and `\` with a backslash, the short escapes for BS, FF,
LF, CR and TAB, `\u00XX` for the other control characters and for `<`, `>`
and `&`, `\u2028` and `\u2029`, anything else in UTF-8. -/
def encodeChar (c : Char) : List Nat :=
  let n := c.toNat
  if n = 0x22 then [0x5C, 0x22]
  else if n = 0x5C then [0x5C, 0x5C]
  else if n = 0x08 then [0x5C, 0x62]
  else if n = 0x0C then [0x5C, 0x66]
  else if n = 0x0A then [0x5C, 0x6E]
  else if n = 0x0D then [0x5C, 0x72]
  else if n = 0x09 then [0x5C, 0x74]
  else if n < 0x20 ∨ n = 0x3C ∨ n = 0x3E ∨ n = 0x26 then
    [0x5C, 0x75, 0x30, 0x30, hexDigit (n / 16), hexDigit (n % 16)]
  else if n = 0x2028 ∨ n = 0x2029 then
    [0x5C, 0x75, 0x32, 0x30, 0x32, hexDigit (n % 16)]
  else utf8Encode c

/-- The runes of a string between the quotes. -/
def encodeChars : List Char → List Nat
  | [] => []
  | c :: cs => encodeChar c ++ encodeChars cs

/-- A quoted string (`appendString`). -/
def encodeString (s : String) : List Nat :=
  0x22 :: (encodeChars s.data ++ [0x22])

mutual
/-- Compact text of a value, as `json.Marshal` lays it out: no white space,
members and elements separated by a comma. -/
def render : JVal → List Nat
  | .null => [0x6E, 0x75, 0x6C, 0x6C]
  | .bool true => [0x74, 0x72, 0x75, 0x65]
  | .bool false => [0x66, 0x61, 0x6C, 0x73, 0x65]
  | .num raw => raw
  | .str s => encodeString s
  | .arr [] => [0x5B, 0x5D]
  | .arr (v :: vs) => 0x5B :: (render v ++ renderElems vs)
  | .obj [] => [0x7B, 0x7D]
  | .obj ((k, v) :: ms) => 0x7B :: (encodeString k ++ 0x3A :: (render v ++ renderMembers ms))
/-- The elements after the first one, and the closing bracket. -/
def renderElems : List JVal → List Nat
  | [] => [0x5D]
  | v :: vs => 0x2C :: (render v ++ renderElems vs)
/-- The members after the first one, and the closing brace. -/
def renderMembers : List (String × JVal) → List Nat
  | [] => [0x7D]
  | (k, v) :: ms => 0x2C :: (encodeString k ++ 0x3A :: (render v ++ renderMembers ms))
end

/-! ## encoding/json: reading a text -/

/-- Nesting limit of the scanner (`maxNestingDepth`). -/
def maxNestingDepth : Nat := 10000

/-- White space of the scanner (`isSpace`): space, TAB, CR, LF. -/
def isSpace (b : Nat) : Bool := b = 0x20 || b = 0x09 || b = 0x0D || b = 0x0A

/-- Input after its leading white space. -/
def skipWs : List Nat → List Nat
  | [] => []
  | b :: rest => if isSpace b then skipWs rest else b :: rest

/-- Decimal digit. -/
def isDigit (b : Nat) : Bool := 0x30 ≤ b && b ≤ 0x39

/-- Leading decimal digits of the input and what follows them. -/
def spanDigits : List Nat → List Nat × List Nat
  | [] => ([], [])
  | b :: rest =>
    if isDigit b then ((spanDigits rest).1.cons b, (spanDigits rest).2) else ([], b :: rest)

/-- Fraction of a number literal: nothing, or a dot and at least one digit. -/
def scanFrac (input : List Nat) : Option (List Nat × List Nat) :=
  match input with
  | 0x2E :: rest =>
    match spanDigits rest with
    | ([], _) => none
    | (ds, r) => some (0x2E :: ds, r)
  | _ => some ([], input)

/-- Exponent of a number literal: nothing, or `e` / `E`, an optional sign and
at least one digit. -/
def scanExp (input : List Nat) : Option (List Nat × List Nat) :=
  match input with
  | [] => some ([], input)
  | e :: rest =>
    if e = 0x65 ∨ e = 0x45 then
      match rest with
      | [] => none
      | s :: rest1 =>
        if s = 0x2B ∨ s = 0x2D then
          match spanDigits rest1 with
          | ([], _) => none
          | (ds, r) => some (e :: s :: ds, r)
        else
          match spanDigits rest with
          | ([], _) => none
          | (ds, r) => some (e :: ds, r)
    else some ([], input)

/-- Integer part of a number literal: `0`, or a non-zero digit and more digits. -/
def scanInt (input : List Nat) : Option (List Nat × List Nat) :=
  match input with
  | [] => none
  | d :: rest =>
    if d = 0x30 then some ([d], rest)
    else if 0x31 ≤ d ∧ d ≤ 0x39 then some (d :: (spanDigits rest).1, (spanDigits rest).2)
    else none

/-- A number literal of the scanner's grammar and the input after it. -/
def scanNumber (input : List Nat) : Option (List Nat × List Nat) :=
  let signed : List Nat × List Nat :=
    match input with
    | 0x2D :: rest => ([0x2D], rest)
    | _ => ([], input)
  match scanInt signed.2 with
  | none => none
  | some (ip, r1) =>
    match scanFrac r1 with
    | none => none
    | some (fp, r2) =>
      match scanExp r2 with
      | none => none
      | some (ep, r3) => some (signed.1 ++ ip ++ fp ++ ep, r3)

/-- Value of a hexadecimal digit of either case. -/
def hexVal (b : Nat) : Option Nat :=
  if 0x30 ≤ b ∧ b ≤ 0x39 then some (b - 0x30)
  else if 0x61 ≤ b ∧ b ≤ 0x66 then some (b - 0x57)
  else if 0x41 ≤ b ∧ b ≤ 0x46 then some (b - 0x37)
  else none

/-- Four hexadecimal digits (what follows `\u`) and the input after them. -/
def getu4 : List Nat → Option (Nat × List Nat)
  | h1 :: h2 :: h3 :: h4 :: rest =>
    match hexVal h1, hexVal h2, hexVal h3, hexVal h4 with
    | some a, some b, some c, some d => some (a * 4096 + b * 256 + c * 16 + d, rest)
    | _, _, _, _ => none
  | _ => none

/-- Rune of a one-letter escape. -/
def simpleEscape (e : Nat) : Option Char :=
  if e = 0x22 ∨ e = 0x5C ∨ e = 0x2F then some (Char.ofNat e)
  else if e = 0x62 then some (Char.ofNat 0x08)
  else if e = 0x66 then some (Char.ofNat 0x0C)
  else if e = 0x6E then some (Char.ofNat 0x0A)
  else if e = 0x72 then some (Char.ofNat 0x0D)
  else if e = 0x74 then some (Char.ofNat 0x09)
  else none

/-- Rune of a `\uXXXX` escape whose value is `rr`, and the input after it.  A
high surrogate followed by the escape of a low surrogate gives the rune of
the pair and consumes both; any other surrogate gives U+FFFD. -/
def escapedRune (rr : Nat) (rest : List Nat) : Char × List Nat :=
  if 0xD800 ≤ rr ∧ rr < 0xE000 then
    match rest with
    | 0x5C :: 0x75 :: rest1 =>
      match getu4 rest1 with
      | some (rr1, rest2) =>
        if rr < 0xDC00 ∧ 0xDC00 ≤ rr1 ∧ rr1 < 0xE000 then
          (Char.ofNat ((rr - 0xD800) * 1024 + (rr1 - 0xDC00) + 0x10000), rest2)
        else (runeError, rest)
      | none => (runeError, rest)
    | _ => (runeError, rest)
  else (Char.ofNat rr, rest)

/-- Prepend a rune to the result of reading the remainder of a string. -/
def consRune (c : Char) : Option (List Char × List Nat) → Option (List Char × List Nat)
  | some (cs, r) => some (c :: cs, r)
  | none => none

/-- The runes of a string literal after its opening quote, up to the closing
quote, and the input after it (scanner `stateInString` and `unquote`): escapes
are resolved, a control character or the end of the input is an error, bytes
that are not UTF-8 become U+FFFD. -/
def parseStringBody : Nat → List Nat → Option (List Char × List Nat)
  | 0, _ => none
  | _ + 1, [] => none
  | fuel + 1, b :: rest =>
    if b = 0x22 then some ([], rest)
    else if b = 0x5C then
      match rest with
      | [] => none
      | e :: rest1 =>
        if e = 0x75 then
          match getu4 rest1 with
          | none => none
          | some (rr, rest2) =>
            consRune (escapedRune rr rest2).1 (parseStringBody fuel (escapedRune rr rest2).2)
        else
          match simpleEscape e with
          | none => none
          | some c => consRune c (parseStringBody fuel rest1)
    else if b < 0x20 then none
    else if b < 0x80 then consRune (Char.ofNat b) (parseStringBody fuel rest)
    else consRune (decodeRune (b :: rest)).1 (parseStringBody fuel (decodeRune (b :: rest)).2)

/-- A string literal whose opening quote has been read. -/
def parseString (rest : List Nat) : Option (String × List Nat) :=
  match parseStringBody (rest.length + 1) rest with
  | some (cs, r) => some (String.mk cs, r)
  | none => none

/-- Input after the literal `lit`, if the input starts with it. -/
def expectLit : List Nat → List Nat → Option (List Nat)
  | [], input => some input
  | _ :: _, [] => none
  | l :: ls, b :: rest => if l = b then expectLit ls rest else none

mutual
/-- One value at the head of the input (white space already skipped) and the
input after it.  `depth` counts the arrays and objects that are open. -/
def parseValue : Nat → Nat → List Nat → Option (JVal × List Nat)
  | 0, _, _ => none
  | _ + 1, _, [] => none
  | fuel + 1, depth, b :: rest =>
    if b = 0x22 then
      match parseString rest with
      | some (s, r) => some (.str s, r)
      | none => none
    else if b = 0x5B then
      if depth < maxNestingDepth then
        match skipWs rest with
        | [] => none
        | c :: r =>
          if c = 0x5D then some (.arr [], r)
          else
            match parseElems fuel (depth + 1) (c :: r) with
            | some (vs, r1) => some (.arr vs, r1)
            | none => none
      else none
    else if b = 0x7B then
      if depth < maxNestingDepth then
        match skipWs rest with
        | [] => none
        | c :: r =>
          if c = 0x7D then some (.obj [], r)
          else
            match parseMembers fuel (depth + 1) (c :: r) with
            | some (ms, r1) => some (.obj ms, r1)
            | none => none
      else none
    else if b = 0x6E then
      match expectLit [0x75, 0x6C, 0x6C] rest with
      | some r => some (.null, r)
      | none => none
    else if b = 0x74 then
      match expectLit [0x72, 0x75, 0x65] rest with
      | some r => some (.bool true, r)
      | none => none
    else if b = 0x66 then
      match expectLit [0x61, 0x6C, 0x73, 0x65] rest with
      | some r => some (.bool false, r)
      | none => none
    else if b = 0x2D ∨ isDigit b then
      match scanNumber (b :: rest) with
      | some (raw, r) => some (.num raw, r)
      | none => none
    else none
/-- The elements of a non-empty array, from the first byte of an element up to
the closing bracket. -/
def parseElems : Nat → Nat → List Nat → Option (List JVal × List Nat)
  | 0, _, _ => none
  | fuel + 1, depth, input =>
    match parseValue fuel depth input with
    | none => none
    | some (v, rest) =>
      match skipWs rest with
      | [] => none
      | c :: r =>
        if c = 0x2C then
          match parseElems fuel depth (skipWs r) with
          | some (vs, r1) => some (v :: vs, r1)
          | none => none
        else if c = 0x5D then some ([v], r)
        else none
/-- The members of a non-empty object, from the opening quote of a key up to
the closing brace. -/
def parseMembers : Nat → Nat → List Nat → Option (List (String × JVal) × List Nat)
  | 0, _, _ => none
  | _ + 1, _, [] => none
  | fuel + 1, depth, q :: input =>
    if q = 0x22 then
      match parseString input with
      | none => none
      | some (k, rest) =>
        match skipWs rest with
        | [] => none
        | c :: r =>
          if c = 0x3A then
            match parseValue fuel depth (skipWs r) with
            | none => none
            | some (v, rest1) =>
              match skipWs rest1 with
              | [] => none
              | c1 :: r1 =>
                if c1 = 0x2C then
                  match parseMembers fuel depth (skipWs r1) with
                  | some (ms, r2) => some ((k, v) :: ms, r2)
                  | none => none
                else if c1 = 0x7D then some ([(k, v)], r1)
                else none
          else none
    else none
end

/-- The value a whole text denotes (`checkValid` followed by the decoder's
walk): one value, white space allowed around it and nothing else. -/
def parseJson (data : List Nat) : Option JVal :=
  match parseValue (2 * data.length + 2) 0 (skipWs data) with
  | some (v, rest) => if skipWs rest = [] then some v else none
  | none => none

/-! ## encoding/json: writing and reading Go values -/

/-- Decimal digits of a natural number, most significant first. -/
def decimalAux : Nat → Nat → List Nat → List Nat
  | 0, _, acc => acc
  | fuel + 1, n, acc =>
    if n < 10 then (48 + n) :: acc else decimalAux fuel (n / 10) ((48 + n % 10) :: acc)

/-- Decimal text of a natural number. -/
def formatNat (n : Nat) : List Nat := decimalAux (n + 1) n []

/-- Decimal text of an integer (`strconv.AppendInt`). -/
def formatInt : Int → List Nat
  | Int.ofNat n => formatNat n
  | Int.negSucc n => 0x2D :: formatNat (n + 1)

/-- An integer field. -/
def jsonInt (i : Int) : JVal := .num (formatInt i)

/-- A `[]byte` field that is not nil: a string holding its base64 text. -/
def jsonBytes (b : List Nat) : JVal := .str (String.mk ((b64Encode b).map Char.ofNat))

/-- A pointer field: `null` when nil. -/
def jsonPtr {α : Type} (f : α → JVal) : Option α → JVal
  | none => .null
  | some x => f x

/-- A slice field: `null` when nil, an array otherwise. -/
def jsonSlice {α : Type} (f : α → JVal) : Option (List α) → JVal
  | none => .null
  | some xs => .arr (xs.map f)

/-- Folded form of one rune of an object key, for names made of ASCII
letters, digits and underscores: lower case to upper case, and the two
non-ASCII runes whose case folding is an ASCII letter (U+017F to `S`, U+212A
to `K`). -/
def foldRune (c : Char) : Char :=
  if 0x61 ≤ c.toNat ∧ c.toNat ≤ 0x7A then Char.ofNat (c.toNat - 0x20)
  else if c.toNat = 0x017F then Char.ofNat 0x53
  else if c.toNat = 0x212A then Char.ofNat 0x4B
  else c

/-- Folded form of an object key (`foldName`). -/
def foldName (s : String) : List Char := s.data.map foldRune

/-- Whether an object key selects the struct field called `field`: the names
are equal, or equal up to case folding. -/
def keyMatches (key field : String) : Bool :=
  key = field || foldName key = foldName field

/-- Store a JSON value into a `string`: `null` leaves it alone, anything but a
string is a type error. -/
def decodeString (cur : String) : JVal → Option String
  | .null => some cur
  | .str s => some s
  | _ => none

/-- Value of a number literal stored into a `uint8`: digits only
(`strconv.ParseUint`) and below 256. -/
def decodeUint8 (cur : Nat) : JVal → Option Nat
  | .null => some cur
  | .num raw =>
    if raw.all isDigit ∧ raw.foldl (fun n d => 10 * n + (d - 48)) 0 < 256 then
      some (raw.foldl (fun n d => 10 * n + (d - 48)) 0)
    else none
  | _ => none

/-- Store the elements of an array into a `[]byte`, each into the element
already there if there is one. -/
def decodeByteElems : List Nat → List JVal → Option (List Nat)
  | _, [] => some []
  | [], v :: vs =>
    match decodeUint8 0 v, decodeByteElems [] vs with
    | some b, some bs => some (b :: bs)
    | _, _ => none
  | c :: cs, v :: vs =>
    match decodeUint8 c v, decodeByteElems cs vs with
    | some b, some bs => some (b :: bs)
    | _, _ => none

/-- Store a JSON value into a `[]byte`: `null` makes it nil, a string is read
as base64, an array is read element by element. -/
def decodeBytes (cur : List Nat) : JVal → Option (List Nat)
  | .null => some []
  | .str s => b64Decode (s.data.map Char.toNat)
  | .arr items => decodeByteElems cur items
  | _ => none

/-! ## The envelope (`main.go`, lines 19-22) -/

/-- The queued unit: `ChannelID` has the JSON name `channel_id`, `Content` the
JSON name `content`.  A nil and an empty `Content` are both `[]`; the handler
only ever stores the non-nil result of a successful `json.Marshal`. -/
structure KafkaMessage where
  ChannelID : String
  Content : List Nat
deriving DecidableEq, Repr

/-- JSON value of an envelope: the two fields in declaration order. -/
def KafkaMessage.toJson (m : KafkaMessage) : JVal :=
  .obj [("channel_id", .str m.ChannelID), ("content", jsonBytes m.Content)]

/-- Model of `json.Marshal(kafkaMsg)`. -/
def marshalKafkaMessage (m : KafkaMessage) : List Nat := render m.toJson

/-- Store the members of an object into a `KafkaMessage`, in the order they
are written; members that select no field are skipped. -/
def decodeKafkaMessageMembers : KafkaMessage → List (String × JVal) → Option KafkaMessage
  | cur, [] => some cur
  | cur, (k, v) :: ms =>
    if keyMatches k "channel_id" then
      match decodeString cur.ChannelID v with
      | some s => decodeKafkaMessageMembers { cur with ChannelID := s } ms
      | none => none
    else if keyMatches k "content" then
      match decodeBytes cur.Content v with
      | some b => decodeKafkaMessageMembers { cur with Content := b } ms
      | none => none
    else decodeKafkaMessageMembers cur ms

/-- Store a JSON value into a `KafkaMessage`. -/
def decodeKafkaMessage (cur : KafkaMessage) : JVal → Option KafkaMessage
  | .null => some cur
  | .obj ms => decodeKafkaMessageMembers cur ms
  | _ => none

/-- Model of `json.Unmarshal(msg.Value, &kafkaMsg)` on the fresh variable of
line 128; `none` is a returned error. -/
def unmarshalKafkaMessage (data : List Nat) : Option KafkaMessage :=
  match parseJson data with
  | some v => decodeKafkaMessage { ChannelID := "", Content := [] } v
  | none => none

/-! ## The consumer's view of a generation result (`main.go`, lines 135-142) -/

/-- Local type `Content` of the consumer. -/
structure Content where
  Parts : List String
deriving DecidableEq, Repr

/-- Element type of `Response.Candidates` (an anonymous struct in the source). -/
structure ResponseCandidate where
  Content : Content
deriving DecidableEq, Repr

/-- Local type `Response` of the consumer. -/
structure Response where
  Candidates : List ResponseCandidate
deriving DecidableEq, Repr

/-- Store the elements of an array into a `[]string`. -/
def decodeStringElems : List String → List JVal → Option (List String)
  | _, [] => some []
  | [], v :: vs =>
    match decodeString "" v, decodeStringElems [] vs with
    | some s, some ss => some (s :: ss)
    | _, _ => none
  | c :: cs, v :: vs =>
    match decodeString c v, decodeStringElems cs vs with
    | some s, some ss => some (s :: ss)
    | _, _ => none

/-- Store a JSON value into a `[]string`. -/
def decodeStringSlice (cur : List String) : JVal → Option (List String)
  | .null => some []
  | .arr items => decodeStringElems cur items
  | _ => none

/-- Store the members of an object into a `Content`. -/
def decodeContentMembers : Content → List (String × JVal) → Option Content
  | cur, [] => some cur
  | cur, (k, v) :: ms =>
    if keyMatches k "Parts" then
      match decodeStringSlice cur.Parts v with
      | some ps => decodeContentMembers { cur with Parts := ps } ms
      | none => none
    else decodeContentMembers cur ms

/-- Store a JSON value into a `Content`. -/
def decodeContent (cur : Content) : JVal → Option Content
  | .null => some cur
  | .obj ms => decodeContentMembers cur ms
  | _ => none

/-- Store the members of an object into an element of `Candidates`. -/
def decodeCandidateMembers : ResponseCandidate → List (String × JVal) → Option ResponseCandidate
  | cur, [] => some cur
  | cur, (k, v) :: ms =>
    if keyMatches k "Content" then
      match decodeContent cur.Content v with
      | some c => decodeCandidateMembers { cur with Content := c } ms
      | none => none
    else decodeCandidateMembers cur ms

/-- Store a JSON value into an element of `Candidates`. -/
def decodeCandidate (cur : ResponseCandidate) : JVal → Option ResponseCandidate
  | .null => some cur
  | .obj ms => decodeCandidateMembers cur ms
  | _ => none

/-- Store the elements of an array into `Candidates`. -/
def decodeCandidateElems : List ResponseCandidate → List JVal → Option (List ResponseCandidate)
  | _, [] => some []
  | [], v :: vs =>
    match decodeCandidate { Content := { Parts := [] } } v, decodeCandidateElems [] vs with
    | some c, some cs => some (c :: cs)
    | _, _ => none
  | c :: cs, v :: vs =>
    match decodeCandidate c v, decodeCandidateElems cs vs with
    | some c1, some cs1 => some (c1 :: cs1)
    | _, _ => none

/-- Store a JSON value into `Candidates`. -/
def decodeCandidates (cur : List ResponseCandidate) : JVal → Option (List ResponseCandidate)
  | .null => some []
  | .arr items => decodeCandidateElems cur items
  | _ => none

/-- Store the members of an object into a `Response`. -/
def decodeResponseMembers : Response → List (String × JVal) → Option Response
  | cur, [] => some cur
  | cur, (k, v) :: ms =>
    if keyMatches k "Candidates" then
      match decodeCandidates cur.Candidates v with
      | some cs => decodeResponseMembers { cur with Candidates := cs } ms
      | none => none
    else decodeResponseMembers cur ms

/-- Store a JSON value into a `Response`. -/
def decodeResponse (cur : Response) : JVal → Option Response
  | .null => some cur
  | .obj ms => decodeResponseMembers cur ms
  | _ => none

/-- Model of `json.Unmarshal(kafkaMsg.Content, &response)` on the fresh
variable of line 144; `none` is a returned error. -/
def unmarshalResponse (data : List Nat) : Option Response :=
  match parseJson data with
  | some v => decodeResponse { Candidates := [] } v
  | none => none

/-! ## The backend's result, as the handler marshals it

The result type belongs to the backend's client library, which is not part of
this repository.  It is taken here with the exported, untagged fields of that
library's `GenerateContentResponse`: a nil pointer or nil slice is `none`, and
`Blob` stands for the parts that are not text (they all marshal to a JSON
object).  The consumer reads `Candidates`, `Content` and `Parts` only. -/

namespace genai

/-- A part of a content: text, or inline data. -/
inductive Part where
  | Text (s : String)
  | Blob (MIMEType : String) (Data : Option (List Nat))
deriving DecidableEq, Repr

/-- The parts of one message and the role of its producer. -/
structure Content where
  Parts : Option (List Part)
  Role : String
deriving DecidableEq, Repr

/-- Safety rating of a piece of content. -/
structure SafetyRating where
  Category : Int
  Probability : Int
  Blocked : Bool
deriving DecidableEq, Repr

/-- Citation of a source for a span of the answer. -/
structure CitationSource where
  StartIndex : Option Int
  EndIndex : Option Int
  URI : Option String
  License : String
deriving DecidableEq, Repr

/-- The citations of one candidate. -/
structure CitationMetadata where
  CitationSources : Option (List (Option CitationSource))
deriving DecidableEq, Repr

/-- One alternative answer. -/
structure Candidate where
  Index : Int
  Content : Option Content
  FinishReason : Int
  SafetyRatings : Option (List (Option SafetyRating))
  CitationMetadata : Option CitationMetadata
  TokenCount : Int
deriving DecidableEq, Repr

/-- Feedback on the prompt. -/
structure PromptFeedback where
  BlockReason : Int
  SafetyRatings : Option (List (Option SafetyRating))
deriving DecidableEq, Repr

/-- Token counts of a request. -/
structure UsageMetadata where
  PromptTokenCount : Int
  CandidatesTokenCount : Int
  TotalTokenCount : Int
deriving DecidableEq, Repr

/-- The generation result: `resp` of line 69. -/
structure GenerateContentResponse where
  Candidates : Option (List (Option Candidate))
  PromptFeedback : Option PromptFeedback
  UsageMetadata : Option UsageMetadata
deriving DecidableEq, Repr

/-- JSON value of a part: a text is a string, a blob an object. -/
def Part.toJson : Part → JVal
  | .Text s => .str s
  | .Blob mime data => .obj [("MIMEType", .str mime), ("Data", jsonPtr jsonBytes data)]

/-- JSON value of a content. -/
def Content.toJson (c : Content) : JVal :=
  .obj [("Parts", jsonSlice Part.toJson c.Parts), ("Role", .str c.Role)]

/-- JSON value of a safety rating. -/
def SafetyRating.toJson (r : SafetyRating) : JVal :=
  .obj [("Category", jsonInt r.Category), ("Probability", jsonInt r.Probability),
    ("Blocked", .bool r.Blocked)]

/-- JSON value of a citation source. -/
def CitationSource.toJson (c : CitationSource) : JVal :=
  .obj [("StartIndex", jsonPtr jsonInt c.StartIndex), ("EndIndex", jsonPtr jsonInt c.EndIndex),
    ("URI", jsonPtr JVal.str c.URI), ("License", .str c.License)]

/-- JSON value of the citations. -/
def CitationMetadata.toJson (c : CitationMetadata) : JVal :=
  .obj [("CitationSources", jsonSlice (jsonPtr CitationSource.toJson) c.CitationSources)]

/-- JSON value of a candidate: its fields in declaration order. -/
def Candidate.toJson (c : Candidate) : JVal :=
  .obj [("Index", jsonInt c.Index), ("Content", jsonPtr Content.toJson c.Content),
    ("FinishReason", jsonInt c.FinishReason),
    ("SafetyRatings", jsonSlice (jsonPtr SafetyRating.toJson) c.SafetyRatings),
    ("CitationMetadata", jsonPtr CitationMetadata.toJson c.CitationMetadata),
    ("TokenCount", jsonInt c.TokenCount)]

/-- JSON value of the prompt feedback. -/
def PromptFeedback.toJson (f : PromptFeedback) : JVal :=
  .obj [("BlockReason", jsonInt f.BlockReason),
    ("SafetyRatings", jsonSlice (jsonPtr SafetyRating.toJson) f.SafetyRatings)]

/-- JSON value of the usage metadata. -/
def UsageMetadata.toJson (u : UsageMetadata) : JVal :=
  .obj [("PromptTokenCount", jsonInt u.PromptTokenCount),
    ("CandidatesTokenCount", jsonInt u.CandidatesTokenCount),
    ("TotalTokenCount", jsonInt u.TotalTokenCount)]

/-- JSON value of a generation result. -/
def GenerateContentResponse.toJson (r : GenerateContentResponse) : JVal :=
  .obj [("Candidates", jsonSlice (jsonPtr Candidate.toJson) r.Candidates),
    ("PromptFeedback", jsonPtr PromptFeedback.toJson r.PromptFeedback),
    ("UsageMetadata", jsonPtr UsageMetadata.toJson r.UsageMetadata)]

/-- The text of a part, if it is a text. -/
def Part.text? : Part → Option String
  | .Text s => some s
  | .Blob _ _ => none

/-- The parts of a content, in order; none for a nil content or nil parts. -/
def contentParts : Option Content → List Part
  | none => []
  | some ct => ct.Parts.getD []

/-- The parts of a candidate, in order; none for a nil candidate, a nil
content or nil parts. -/
def candidateParts : Option Candidate → List Part
  | none => []
  | some c => contentParts c.Content

/-- The parts of a result: one list per candidate, in candidate order. -/
def GenerateContentResponse.parts (r : GenerateContentResponse) : List (List Part) :=
  (r.Candidates.getD []).map candidateParts

/-- Whether every part of the result is a text. -/
def GenerateContentResponse.allText (r : GenerateContentResponse) : Bool :=
  r.parts.all fun ps => ps.all fun p => (Part.text? p).isSome

/-- The texts of the parts of a result: one list per candidate. -/
def GenerateContentResponse.texts (r : GenerateContentResponse) : List (List String) :=
  r.parts.map fun ps => ps.filterMap Part.text?

end genai

/-- Model of `json.Marshal(resp)` for a result of the shape above (for which
it returns no error). -/
def marshalResponse (r : genai.GenerateContentResponse) : List Nat := render r.toJson

/-! ## Calls that leave the program -/

/-- A message handed to the queue writer: `kafka.Message` with the two fields
the program looks at; a nil `Key` is `none`. -/
structure Message where
  Key : Option (List Nat)
  Value : List Nat
deriving DecidableEq, Repr

/-- An inbound chat event: the fields of `discordgo.MessageCreate` the handler
reads (`m.Author.ID`, `m.ChannelID`, `m.Content`). -/
structure MessageCreate where
  AuthorID : String
  ChannelID : String
  Content : String
deriving DecidableEq, Repr

/-- A call made by the program, with its arguments. -/
inductive Call where
  /-- Call of `model.GenerateContent(ctx, genai.Text(prompt))` on the named model. -/
  | generateContent (model : String) (prompt : String)
  /-- Call of `json.Marshal(resp)`. -/
  | jsonMarshalResponse (resp : genai.GenerateContentResponse)
  /-- Call of `json.Marshal(kafkaMsg)`. -/
  | jsonMarshalKafkaMessage (kafkaMsg : KafkaMessage)
  /-- Call of `kafkaWriter.WriteMessages(ctx, msg)`. -/
  | writeMessages (msg : Message)
  /-- Call of `s.ChannelMessageSend(channelID, content)`. -/
  | channelMessageSend (channelID : String) (content : String)
  /-- Call of `log.Println(text, err)`; the error value is not recorded. -/
  | logPrintln (text : String)
  /-- Call of `log.Fatal(err)`, which ends the process. -/
  | logFatal
deriving DecidableEq, Repr

/-- What the calls with a result return: each may return an error. -/
structure Env where
  generateContent : String → Except String genai.GenerateContentResponse
  marshalResponse : genai.GenerateContentResponse → Except String (List Nat)
  marshalKafkaMessage : KafkaMessage → Except String (List Nat)
  writeMessages : Message → Except String Unit

/-- The environment in which `json.Marshal` is the model above, for a given
backend and queue writer. -/
def jsonEnv (backend : String → Except String genai.GenerateContentResponse)
    (writer : Message → Except String Unit) : Env where
  generateContent := backend
  marshalResponse := fun r => .ok (marshalResponse r)
  marshalKafkaMessage := fun m => .ok (marshalKafkaMessage m)
  writeMessages := writer

/-! ## The message handler (`main.go`, lines 59-108) -/

/-- Model of `strings.HasPrefix(s, p)`. -/
def hasPrefixStr (s p : String) : Bool := p.data.isPrefixOf s.data

/-- The trigger of a command. -/
def trigger : String := "/B "

/-- Model of `m.Content[3:]`, taken only after the check that the content
starts with the three bytes of the trigger. -/
def cutText (content : String) : String := String.mk (content.data.drop 3)

/-- The calls the handler makes for one event, in order.  `botID` is
`s.State.User.ID`. -/
def messageHandler (env : Env) (botID : String) (m : MessageCreate) : List Call :=
  if m.AuthorID = botID then []
  else if hasPrefixStr m.Content trigger then
    .generateContent "gemini-1.5-flash" (cutText m.Content) ::
    match env.generateContent (cutText m.Content) with
    | .error _ =>
      [.logPrintln "Error generating content:",
       .channelMessageSend m.ChannelID "Error generating content from Gemini."]
    | .ok resp =>
      .jsonMarshalResponse resp ::
      match env.marshalResponse resp with
      | .error _ =>
        [.logPrintln "Error marshaling response:",
         .channelMessageSend m.ChannelID "Error processing response from Gemini."]
      | .ok respJSON =>
        .jsonMarshalKafkaMessage { ChannelID := m.ChannelID, Content := respJSON } ::
        match env.marshalKafkaMessage { ChannelID := m.ChannelID, Content := respJSON } with
        | .error _ =>
          [.logPrintln "Error marshaling Kafka message:",
           .channelMessageSend m.ChannelID "Error preparing message for Kafka."]
        | .ok kafkaMsgJSON =>
          .writeMessages { Key := none, Value := kafkaMsgJSON } ::
          match env.writeMessages { Key := none, Value := kafkaMsgJSON } with
          | .error _ =>
            [.logPrintln "Error writing to Kafka:",
             .channelMessageSend m.ChannelID "Error sending message to Kafka."]
          | .ok _ => []
  else []

/-! ## The consumer goroutine (`main.go`, lines 120-157) -/

/-- The two decoding steps of one iteration: the envelope, then its payload. -/
def consumerDecode (value : List Nat) : Option (KafkaMessage × Response) :=
  match unmarshalKafkaMessage value with
  | none => none
  | some kafkaMsg =>
    match unmarshalResponse kafkaMsg.Content with
    | none => none
    | some response => some (kafkaMsg, response)

/-- The send loop of lines 151-155: one send per part, candidate by candidate. -/
def sendParts (channelID : String) (response : Response) : List Call :=
  response.Candidates.flatMap fun candidate =>
    candidate.Content.Parts.map fun part => Call.channelMessageSend channelID part

/-- The calls of one iteration of the loop after a successful read. -/
def consumeMessage (value : List Nat) : List Call :=
  match unmarshalKafkaMessage value with
  | none => [.logPrintln "Error unmarshaling Kafka message:"]
  | some kafkaMsg =>
    match unmarshalResponse kafkaMsg.Content with
    | none => [.logPrintln "Error unmarshaling response:"]
    | some response => sendParts kafkaMsg.ChannelID response

/-- The calls of the consumer loop, given what the successive calls of
`kafkaReader.ReadMessage` return.  A failed read ends the process; when the
list is used up the loop is blocked in the next read. -/
def consumerLoop : List (Except String Message) → List Call
  | [] => []
  | .error _ :: _ => [.logFatal]
  | .ok msg :: reads => consumeMessage msg.Value ++ consumerLoop reads

/-- The chat messages among a list of calls, as (channel id, text) pairs. -/
def sends : List Call → List (String × String)
  | [] => []
  | .channelMessageSend ch text :: cs => (ch, text) :: sends cs
  | _ :: cs => sends cs

/-- The queue messages among a list of calls. -/
def queueWrites : List Call → List Message
  | [] => []
  | .writeMessages msg :: cs => msg :: queueWrites cs
  | _ :: cs => queueWrites cs

/-- The prompts handed to the backend among a list of calls. -/
def backendCalls : List Call → List String
  | [] => []
  | .generateContent _ prompt :: cs => prompt :: backendCalls cs
  | _ :: cs => backendCalls cs

/-- The number of `json.Marshal` calls among a list of calls. -/
def marshalCalls : List Call → Nat
  | [] => 0
  | .jsonMarshalResponse _ :: cs => marshalCalls cs + 1
  | .jsonMarshalKafkaMessage _ :: cs => marshalCalls cs + 1
  | _ :: cs => marshalCalls cs

/-! ## Notions used in the statements -/

/-- What may follow a number literal in a text: nothing that would extend it. -/
def NumEnd (rest : List Nat) : Prop :=
  ∀ b r, rest = b :: r → isDigit b = false ∧ b ≠ 0x2E ∧ b ≠ 0x65 ∧ b ≠ 0x45

mutual
/-- Values whose numbers are decimal integers, as the marshalling of this
program's types produces them. -/
def JVal.WF : JVal → Prop
  | .num raw => ∃ i : Int, raw = formatInt i
  | .arr items => WFList items
  | .obj ms => WFMembers ms
  | _ => True
/-- All elements are well formed. -/
def WFList : List JVal → Prop
  | [] => True
  | v :: vs => v.WF ∧ WFList vs
/-- All member values are well formed. -/
def WFMembers : List (String × JVal) → Prop
  | [] => True
  | (_, v) :: ms => v.WF ∧ WFMembers ms
end

mutual
/-- Nesting depth of a value: the number of arrays and objects open at its
deepest point. -/
def JVal.height : JVal → Nat
  | .arr items => heightList items + 1
  | .obj ms => heightMembers ms + 1
  | _ => 0
/-- Largest nesting depth among the elements. -/
def heightList : List JVal → Nat
  | [] => 0
  | v :: vs => max v.height (heightList vs)
/-- Largest nesting depth among the member values. -/
def heightMembers : List (String × JVal) → Nat
  | [] => 0
  | (_, v) :: ms => max v.height (heightMembers ms)
end

mutual
/-- A number of steps that is enough to read the value back. -/
def JVal.need : JVal → Nat
  | .arr items => needList items + 1
  | .obj ms => needMembers ms + 1
  | _ => 1
/-- Steps for the elements of an array. -/
def needList : List JVal → Nat
  | [] => 0
  | v :: vs => v.need + needList vs + 1
/-- Steps for the members of an object. -/
def needMembers : List (String × JVal) → Nat
  | [] => 0
  | (_, v) :: ms => v.need + needMembers ms + 1
end

/-- What the consumer's `Response` holds after reading a result whose parts
are texts: per candidate, the texts of its parts. -/
def viewOf (r : genai.GenerateContentResponse) : Response :=
  { Candidates := r.texts.map fun ps => { Content := { Parts := ps } } }

/-- Whether a JSON value is `null` or an array of strings. -/
def isStringArray : JVal → Bool
  | .null => true
  | .arr items => items.all fun v => match v with
    | .str _ => true
    | _ => false
  | _ => false

/-- Whether a JSON value is `null` or an object whose member `Parts` is
`null` or an array of strings. -/
def isContentShape : JVal → Bool
  | .null => true
  | .obj ms => ms.any fun kv => kv.1 = "Parts" && isStringArray kv.2
  | _ => false

/-- Whether a JSON value is `null` or an object whose member `Content` has
the shape of a content. -/
def isCandidateShape : JVal → Bool
  | .null => true
  | .obj ms => ms.any fun kv => kv.1 = "Content" && isContentShape kv.2
  | _ => false

/-- Whether a JSON value is an object whose member `Candidates` is `null` or
an array of values with the shape of a candidate. -/
def isResponseShape : JVal → Bool
  | .obj ms => ms.any fun kv => kv.1 = "Candidates" &&
    match kv.2 with
    | .null => true
    | .arr items => items.all isCandidateShape
    | _ => false
  | _ => false

/-- A generation result with one candidate made of one text part. -/
def oneTextResponse (text : String) : genai.GenerateContentResponse :=
  { Candidates := some [some
      { Index := 0
        Content := some { Parts := some [.Text text], Role := "model" }
        FinishReason := 1
        SafetyRatings := none
        CitationMetadata := none
        TokenCount := 0 }]
    PromptFeedback := none
    UsageMetadata := none }

/-- A generation result with two candidates of two text parts each. -/
def twoByTwoResponse : genai.GenerateContentResponse :=
  { Candidates := some
      [some
        { Index := 0
          Content := some { Parts := some [.Text "a", .Text "b"], Role := "model" }
          FinishReason := 1
          SafetyRatings := none
          CitationMetadata := none
          TokenCount := 0 },
       some
        { Index := 1
          Content := some { Parts := some [.Text "c", .Text "d"], Role := "model" }
          FinishReason := 1
          SafetyRatings := none
          CitationMetadata := none
          TokenCount := 0 }]
    PromptFeedback := none
    UsageMetadata := none }

/-- An environment whose backend answers every prompt with the same result
and whose queue accepts every message. -/
def answeringEnv (resp : genai.GenerateContentResponse) : Env :=
  jsonEnv (fun _ => .ok resp) (fun _ => .ok ())

/-- An environment whose backend fails on every prompt. -/
def failingEnv : Env :=
  jsonEnv (fun _ => .error "backend unavailable") (fun _ => .ok ())

/-! ## Lemmas: UTF-8 -/

/-- The code point of a rune is a Unicode scalar value. -/
theorem char_range (c : Char) : c.toNat < 0xD800 ∨ (0xDFFF < c.toNat ∧ c.toNat < 0x110000) := by
  have h := c.valid
  simpa [UInt32.isValidChar, Nat.isValidChar, Char.toNat] using h

theorem decodeRune_one (b0 : Nat) (rest : List Nat) (h : b0 < 0x80) :
    decodeRune (b0 :: rest) = (Char.ofNat b0, rest) := by
  simp [decodeRune, h]

theorem decodeRune_two (b0 b1 : Nat) (rest : List Nat) (h0 : 0xC2 ≤ b0 ∧ b0 ≤ 0xDF)
    (h1 : 0x80 ≤ b1 ∧ b1 ≤ 0xBF) :
    decodeRune (b0 :: b1 :: rest) = (Char.ofNat (b0 % 32 * 64 + b1 % 64), rest) := by
  have a : ¬ b0 < 0x80 := by omega
  simp [decodeRune, a, h0, h1]

theorem decodeRune_three (b0 b1 b2 : Nat) (rest : List Nat) (h0 : 0xE0 ≤ b0 ∧ b0 ≤ 0xEF)
    (h1 : (if b0 = 0xE0 then 0xA0 else 0x80) ≤ b1 ∧ b1 ≤ (if b0 = 0xED then 0x9F else 0xBF))
    (h2 : 0x80 ≤ b2 ∧ b2 ≤ 0xBF) :
    decodeRune (b0 :: b1 :: b2 :: rest)
      = (Char.ofNat (b0 % 16 * 4096 + b1 % 64 * 64 + b2 % 64), rest) := by
  have a : ¬ b0 < 0x80 := by omega
  have b : ¬ (0xC2 ≤ b0 ∧ b0 ≤ 0xDF) := by omega
  simp only [decodeRune, a, b, h0, h1, h2, if_false, if_true, and_self]

theorem decodeRune_four (b0 b1 b2 b3 : Nat) (rest : List Nat) (h0 : 0xF0 ≤ b0 ∧ b0 ≤ 0xF4)
    (h1 : (if b0 = 0xF0 then 0x90 else 0x80) ≤ b1 ∧ b1 ≤ (if b0 = 0xF4 then 0x8F else 0xBF))
    (h2 : 0x80 ≤ b2 ∧ b2 ≤ 0xBF) (h3 : 0x80 ≤ b3 ∧ b3 ≤ 0xBF) :
    decodeRune (b0 :: b1 :: b2 :: b3 :: rest)
      = (Char.ofNat (b0 % 8 * 262144 + b1 % 64 * 4096 + b2 % 64 * 64 + b3 % 64), rest) := by
  have a : ¬ b0 < 0x80 := by omega
  have b : ¬ (0xC2 ≤ b0 ∧ b0 ≤ 0xDF) := by omega
  have c : ¬ (0xE0 ≤ b0 ∧ b0 ≤ 0xEF) := by omega
  simp only [decodeRune, a, b, c, h0, h1, h2, h3, if_false, if_true, and_self]

theorem decodeRune_utf8Encode (c : Char) (rest : List Nat) :
    decodeRune (utf8Encode c ++ rest) = (c, rest) := by
  have hv := char_range c
  have hc : Char.ofNat c.toNat = c := Char.ofNat_toNat c
  generalize hn : c.toNat = n at hv hc
  unfold utf8Encode
  simp only [hn]
  by_cases h1 : n < 0x80
  · simp only [h1, if_true, List.cons_append, List.nil_append]
    rw [decodeRune_one _ _ h1, hc]
  · by_cases h2 : n < 0x800
    · simp only [h1, h2, if_false, if_true, List.cons_append, List.nil_append]
      rw [decodeRune_two _ _ _ (by omega) (by omega)]
      have e : (0xC0 + n / 64) % 32 * 64 + (0x80 + n % 64) % 64 = n := by omega
      rw [e, hc]
    · by_cases h3 : n < 0x10000
      · simp only [h1, h2, h3, if_false, if_true, List.cons_append, List.nil_append]
        rw [decodeRune_three _ _ _ _ (by omega) (by split_ifs <;> omega) (by omega)]
        have e : (0xE0 + n / 4096) % 16 * 4096 + (0x80 + n / 64 % 64) % 64 * 64
            + (0x80 + n % 64) % 64 = n := by omega
        rw [e, hc]
      · simp only [h1, h2, h3, if_false, List.cons_append, List.nil_append]
        rw [decodeRune_four _ _ _ _ _ (by omega) (by split_ifs <;> omega) (by omega) (by omega)]
        have e : (0xF0 + n / 262144) % 8 * 262144 + (0x80 + n / 4096 % 64) % 64 * 4096
            + (0x80 + n / 64 % 64) % 64 * 64 + (0x80 + n % 64) % 64 = n := by omega
        rw [e, hc]

/-! ## Lemmas: string literals -/

theorem hexVal_hexDigit (k : Nat) (h : k < 16) : hexVal (hexDigit k) = some k := by
  unfold hexDigit hexVal
  by_cases h1 : k < 10
  · have a : 0x30 ≤ 48 + k ∧ 48 + k ≤ 0x39 := by omega
    simp only [h1, if_true, a, and_self]
    congr 1
    omega
  · have a : ¬ (0x30 ≤ 87 + k ∧ 87 + k ≤ 0x39) := by omega
    have b : 0x61 ≤ 87 + k ∧ 87 + k ≤ 0x66 := by omega
    simp only [h1, if_false, a, b, if_true, and_self]
    congr 1
    omega

theorem utf8Encode_head (c : Char) (h : 0x80 ≤ c.toNat) :
    ∃ b tl, utf8Encode c = b :: tl ∧ 0x80 ≤ b := by
  unfold utf8Encode
  have h1 : ¬ c.toNat < 0x80 := by omega
  simp only [h1, if_false]
  split_ifs
  · exact ⟨_, _, rfl, by omega⟩
  · exact ⟨_, _, rfl, by omega⟩
  · exact ⟨_, _, rfl, by omega⟩

theorem encodeChar_ne_nil (c : Char) : 0 < (encodeChar c).length := by
  have hu : 0 < (utf8Encode c).length := by
    unfold utf8Encode
    simp only
    repeat' split
    all_goals simp
  unfold encodeChar
  simp only
  repeat' split
  all_goals first | exact hu | simp

/-- Reading one encoded rune: the literal continues with what follows it. -/
theorem parseStringBody_encodeChar (c : Char) (fuel : Nat) (t : List Nat) :
    parseStringBody (fuel + 1) (encodeChar c ++ t) = consRune c (parseStringBody fuel t) := by
  have hv := char_range c
  have hc : Char.ofNat c.toNat = c := Char.ofNat_toNat c
  unfold encodeChar
  simp only
  by_cases h1 : c.toNat = 0x22
  · rw [h1] at hc
    simp [h1, parseStringBody, simpleEscape]
    rw [hc]
  by_cases h2 : c.toNat = 0x5C
  · rw [h2] at hc
    simp [h2, parseStringBody, simpleEscape]
    rw [hc]
  by_cases h3 : c.toNat = 0x08
  · rw [h3] at hc
    simp [h3, parseStringBody, simpleEscape]
    rw [hc]
  by_cases h4 : c.toNat = 0x0C
  · rw [h4] at hc
    simp [h4, parseStringBody, simpleEscape]
    rw [hc]
  by_cases h5 : c.toNat = 0x0A
  · rw [h5] at hc
    simp [h5, parseStringBody, simpleEscape]
    rw [hc]
  by_cases h6 : c.toNat = 0x0D
  · rw [h6] at hc
    simp [h6, parseStringBody, simpleEscape]
    rw [hc]
  by_cases h7 : c.toNat = 0x09
  · rw [h7] at hc
    simp [h7, parseStringBody, simpleEscape]
    rw [hc]
  simp only [h1, h2, h3, h4, h5, h6, h7, if_false]
  by_cases h8 : c.toNat < 0x20 ∨ c.toNat = 0x3C ∨ c.toNat = 0x3E ∨ c.toNat = 0x26
  · simp only [h8, if_true, List.cons_append, List.nil_append]
    have g : getu4 (0x30 :: 0x30 :: hexDigit (c.toNat / 16) :: hexDigit (c.toNat % 16) :: t)
        = some (c.toNat, t) := by
      have z : hexVal 0x30 = some 0 := by decide
      simp only [getu4, z, hexVal_hexDigit (c.toNat / 16) (by omega),
        hexVal_hexDigit (c.toNat % 16) (by omega)]
      congr 2
      omega
    have e : escapedRune c.toNat t = (c, t) := by
      have : ¬ (0xD800 ≤ c.toNat ∧ c.toNat < 0xE000) := by omega
      simp only [escapedRune, this, if_false, hc]
    simp [parseStringBody, g, e]
  by_cases h9 : c.toNat = 0x2028 ∨ c.toNat = 0x2029
  · simp only [h8, h9, if_false, if_true, List.cons_append, List.nil_append]
    have g : getu4 (0x32 :: 0x30 :: 0x32 :: hexDigit (c.toNat % 16) :: t)
        = some (c.toNat, t) := by
      have z : hexVal 0x30 = some 0 := by decide
      have z2 : hexVal 0x32 = some 2 := by decide
      simp only [getu4, z, z2, hexVal_hexDigit (c.toNat % 16) (by omega)]
      congr 2
      omega
    have e : escapedRune c.toNat t = (c, t) := by
      have : ¬ (0xD800 ≤ c.toNat ∧ c.toNat < 0xE000) := by omega
      simp only [escapedRune, this, if_false, hc]
    simp [parseStringBody, g, e]
  simp only [h8, h9, if_false]
  by_cases h10 : c.toNat < 0x80
  · have u : utf8Encode c = [c.toNat] := by simp [utf8Encode, h10]
    have a : ¬ c.toNat < 0x20 := by omega
    simp [u, parseStringBody, h1, h2, a, h10, hc]
  · obtain ⟨b, tl, hb, hge⟩ := utf8Encode_head c (by omega)
    have d := decodeRune_utf8Encode c t
    rw [hb] at d ⊢
    have a1 : ¬ b = 0x22 := by omega
    have a2 : ¬ b = 0x5C := by omega
    have a3 : ¬ b < 0x20 := by omega
    have a4 : ¬ b < 0x80 := by omega
    simp only [List.cons_append] at d ⊢
    simp only [parseStringBody, a1, a2, a3, a4, if_false, d]

theorem parseStringBody_encodeChars (cs : List Char) (fuel : Nat) (rest : List Nat)
    (h : (encodeChars cs).length < fuel) :
    parseStringBody fuel (encodeChars cs ++ 0x22 :: rest) = some (cs, rest) := by
  induction cs generalizing fuel with
  | nil =>
    obtain ⟨f, rfl⟩ : ∃ f, fuel = f + 1 := ⟨fuel - 1, by omega⟩
    simp [encodeChars, parseStringBody]
  | cons c cs ih =>
    obtain ⟨f, rfl⟩ : ∃ f, fuel = f + 1 := ⟨fuel - 1, by omega⟩
    have hl := encodeChar_ne_nil c
    simp only [encodeChars, List.length_append] at h
    simp only [encodeChars, List.append_assoc]
    rw [parseStringBody_encodeChar, ih f (by omega)]
    rfl

/-- Reading back a quoted string, after its opening quote. -/
theorem parseString_encodeString (s : String) (rest : List Nat) :
    parseString (encodeChars s.data ++ 0x22 :: rest) = some (s, rest) := by
  unfold parseString
  rw [parseStringBody_encodeChars s.data _ rest (by simp; omega)]

/-! ## Lemmas: number literals -/

/-- A list of decimal digits followed by something that is not a digit is
split at that point. -/
theorem spanDigits_append (ds rest : List Nat) (hd : ∀ d ∈ ds, isDigit d = true)
    (hr : ∀ b r, rest = b :: r → isDigit b = false) :
    spanDigits (ds ++ rest) = (ds, rest) := by
  induction ds with
  | nil =>
    cases rest with
    | nil => rfl
    | cons b r => simp [spanDigits, hr b r rfl]
  | cons d ds ih =>
    have h1 := hd d (by simp)
    have h2 := ih (fun x hx => hd x (by simp [hx]))
    simp [spanDigits, h1, h2]

theorem decimalAux_spec (fuel : Nat) : ∀ (n : Nat) (acc : List Nat), n < fuel →
    (∀ d ∈ acc, isDigit d = true) →
    ∃ d ds, decimalAux fuel n acc = d :: ds ∧ (∀ x ∈ ds, isDigit x = true) ∧
      (0 < n → 0x31 ≤ d ∧ d ≤ 0x39) ∧ (n = 0 → d = 0x30 ∧ ds = acc) := by
  induction fuel with
  | zero => intro n acc h; omega
  | succ f ih =>
    intro n acc h hacc
    unfold decimalAux
    by_cases h10 : n < 10
    · simp only [h10, if_true]
      refine ⟨48 + n, acc, rfl, hacc, fun _ => by omega, fun h0 => ?_⟩
      subst h0
      exact ⟨rfl, rfl⟩
    · simp only [h10, if_false]
      have hacc2 : ∀ d ∈ (48 + n % 10) :: acc, isDigit d = true := by
        intro d hd
        rcases List.mem_cons.mp hd with rfl | hd
        · simp [isDigit]; omega
        · exact hacc d hd
      obtain ⟨d, ds, e, hds, hpos, _⟩ := ih (n / 10) _ (by omega) hacc2
      exact ⟨d, ds, e, hds, fun _ => hpos (by omega), fun h0 => by omega⟩

/-- Shape of the decimal text of a natural number: `0`, or a non-zero digit
followed by digits. -/
theorem formatNat_spec (n : Nat) :
    ∃ d ds, formatNat n = d :: ds ∧ (∀ x ∈ ds, isDigit x = true) ∧
      ((d = 0x30 ∧ ds = []) ∨ (0x31 ≤ d ∧ d ≤ 0x39)) := by
  obtain ⟨d, ds, e, hds, hpos, hz⟩ := decimalAux_spec (n + 1) n [] (by omega) (by simp)
  refine ⟨d, ds, e, hds, ?_⟩
  by_cases h0 : n = 0
  · exact Or.inl (hz h0)
  · exact Or.inr (hpos (by omega))

theorem scanInt_formatNat (n : Nat) (rest : List Nat) (hr : NumEnd rest) :
    scanInt (formatNat n ++ rest) = some (formatNat n, rest) := by
  obtain ⟨d, ds, e, hds, hd⟩ := formatNat_spec n
  rw [e]
  rcases hd with ⟨rfl, rfl⟩ | hd
  · simp [scanInt]
  · have h0 : ¬ d = 0x30 := by omega
    have hs := spanDigits_append ds rest hds (fun b r hb => (hr b r hb).1)
    simp only [List.cons_append, scanInt, h0, if_false, hd, and_self, if_true, hs]

theorem scanFrac_numEnd (rest : List Nat) (hr : NumEnd rest) : scanFrac rest = some ([], rest) := by
  cases rest with
  | nil => rfl
  | cons b r =>
    have h := hr b r rfl
    unfold scanFrac
    split
    · next r1 heq =>
      simp only [List.cons.injEq] at heq
      exact absurd heq.1 h.2.1
    · rfl

theorem scanExp_numEnd (rest : List Nat) (hr : NumEnd rest) : scanExp rest = some ([], rest) := by
  cases rest with
  | nil => rfl
  | cons e r =>
    have h := hr e r rfl
    have : ¬ (e = 0x65 ∨ e = 0x45) := by
      rintro (h1 | h1)
      · exact h.2.2.1 h1
      · exact h.2.2.2 h1
    simp only [scanExp, this, if_false]

/-- Reading back the decimal text of an integer. -/
theorem scanNumber_formatInt (i : Int) (rest : List Nat) (hr : NumEnd rest) :
    scanNumber (formatInt i ++ rest) = some (formatInt i, rest) := by
  cases i with
  | ofNat n =>
    obtain ⟨d, ds, e, hds, hd⟩ := formatNat_spec n
    have hne : d ≠ 0x2D := by
      rcases hd with ⟨rfl, _⟩ | hd
      · decide
      · omega
    have hi := scanInt_formatNat n rest hr
    simp only [formatInt]
    rw [e] at hi ⊢
    unfold scanNumber
    have hsplit : (match d :: ds ++ rest with
        | 0x2D :: r => (([0x2D] : List Nat), r)
        | _ => ([], d :: ds ++ rest)) = ([], d :: ds ++ rest) := by
      simp only [List.cons_append]
      split
      · next r heq =>
        simp only [List.cons.injEq] at heq
        exact absurd heq.1 hne
      · rfl
    simp only [hsplit, hi, scanFrac_numEnd rest hr, scanExp_numEnd rest hr]
    simp
  | negSucc n =>
    have hi := scanInt_formatNat (n + 1) rest hr
    simp only [formatInt, List.cons_append]
    unfold scanNumber
    simp only [hi, scanFrac_numEnd rest hr, scanExp_numEnd rest hr]
    simp

/-! ## Lemmas: reading back a rendered value -/

theorem skipWs_cons (b : Nat) (t : List Nat) (h : isSpace b = false) :
    skipWs (b :: t) = b :: t := by
  simp [skipWs, h]

theorem formatInt_head (i : Int) :
    ∃ b tl, formatInt i = b :: tl ∧ (b = 0x2D ∨ (0x30 ≤ b ∧ b ≤ 0x39)) := by
  cases i with
  | ofNat n =>
    obtain ⟨d, ds, e, _, hd⟩ := formatNat_spec n
    refine ⟨d, ds, e, Or.inr ?_⟩
    rcases hd with ⟨rfl, _⟩ | hd
    · decide
    · omega
  | negSucc n => exact ⟨0x2D, _, rfl, Or.inl rfl⟩

/-- First byte of a rendered value: never white space, never a closing
bracket. -/
theorem render_head (v : JVal) (hwf : v.WF) :
    ∃ b tl, render v = b :: tl ∧ isSpace b = false ∧ b ≠ 0x5D := by
  cases v with
  | null => exact ⟨_, _, rfl, by decide, by decide⟩
  | bool b => cases b <;> exact ⟨_, _, rfl, by decide, by decide⟩
  | num raw =>
    obtain ⟨i, rfl⟩ := hwf
    obtain ⟨b, tl, e, hb⟩ := formatInt_head i
    refine ⟨b, tl, by simp [render, e], ?_, ?_⟩
    · rcases hb with rfl | hb
      · decide
      · simp [isSpace]; omega
    · rcases hb with rfl | hb
      · decide
      · omega
  | str s => exact ⟨_, _, rfl, by decide, by decide⟩
  | arr items => cases items <;> exact ⟨_, _, rfl, by decide, by decide⟩
  | obj ms =>
    cases ms with
    | nil => exact ⟨_, _, rfl, by decide, by decide⟩
    | cons m ms => obtain ⟨k, v⟩ := m; exact ⟨_, _, rfl, by decide, by decide⟩

theorem numEnd_cons (b : Nat) (t : List Nat) (h : b = 0x2C ∨ b = 0x5D ∨ b = 0x7D) :
    NumEnd (b :: t) := by
  intro b1 r e
  simp only [List.cons.injEq] at e
  obtain ⟨rfl, _⟩ := e
  rcases h with rfl | rfl | rfl <;> decide

theorem numEnd_nil : NumEnd [] := by
  intro b r e
  cases e

mutual
/-- Reading back a rendered value gives the value and leaves what follows. -/
theorem parseValue_render : ∀ (v : JVal) (fuel depth : Nat) (rest : List Nat),
    v.WF → v.need ≤ fuel → depth + v.height ≤ maxNestingDepth → NumEnd rest →
    parseValue fuel depth (render v ++ rest) = some (v, rest)
  | .null, fuel, depth, rest, _, hf, _, _ => by
    obtain ⟨f, rfl⟩ : ∃ f, fuel = f + 1 := ⟨fuel - 1, by simp [JVal.need] at hf; omega⟩
    simp [render, parseValue, expectLit]
  | .bool true, fuel, depth, rest, _, hf, _, _ => by
    obtain ⟨f, rfl⟩ : ∃ f, fuel = f + 1 := ⟨fuel - 1, by simp [JVal.need] at hf; omega⟩
    simp [render, parseValue, expectLit]
  | .bool false, fuel, depth, rest, _, hf, _, _ => by
    obtain ⟨f, rfl⟩ : ∃ f, fuel = f + 1 := ⟨fuel - 1, by simp [JVal.need] at hf; omega⟩
    simp [render, parseValue, expectLit]
  | .str s, fuel, depth, rest, _, hf, _, _ => by
    obtain ⟨f, rfl⟩ : ∃ f, fuel = f + 1 := ⟨fuel - 1, by simp [JVal.need] at hf; omega⟩
    simp [render, encodeString, parseValue, parseString_encodeString]
  | .num raw, fuel, depth, rest, hwf, hf, _, hr => by
    obtain ⟨f, rfl⟩ : ∃ f, fuel = f + 1 := ⟨fuel - 1, by simp [JVal.need] at hf; omega⟩
    obtain ⟨i, rfl⟩ := hwf
    have hs := scanNumber_formatInt i rest hr
    obtain ⟨b, tl, e, hb⟩ := formatInt_head i
    simp only [render]
    rw [e] at hs ⊢
    have c1 : ¬ b = 0x22 := by omega
    have c2 : ¬ b = 0x5B := by omega
    have c3 : ¬ b = 0x7B := by omega
    have c4 : ¬ b = 0x6E := by omega
    have c5 : ¬ b = 0x74 := by omega
    have c6 : ¬ b = 0x66 := by omega
    have c7 : b = 0x2D ∨ isDigit b = true := by
      rcases hb with h | h
      · exact Or.inl h
      · right; simp [isDigit]; omega
    simp only [List.cons_append] at hs ⊢
    simp only [parseValue, c1, c2, c3, c4, c5, c6, c7, if_false, if_true, hs]
  | .arr [], fuel, depth, rest, _, hf, hd, _ => by
    obtain ⟨f, rfl⟩ : ∃ f, fuel = f + 1 := ⟨fuel - 1, by simp [JVal.need] at hf; omega⟩
    have hlt : depth < maxNestingDepth := by simp [JVal.height] at hd; omega
    simp [render, parseValue, hlt, skipWs, isSpace]
  | .arr (v :: vs), fuel, depth, rest, hwf, hf, hd, _ => by
    obtain ⟨f, rfl⟩ : ∃ f, fuel = f + 1 :=
      ⟨fuel - 1, by simp [JVal.need, needList] at hf; omega⟩
    simp only [JVal.need, needList] at hf
    simp only [JVal.height, heightList] at hd
    simp only [JVal.WF, WFList] at hwf
    have hm1 := le_max_left v.height (heightList vs)
    have hm2 := le_max_right v.height (heightList vs)
    have hlt : depth < maxNestingDepth := by omega
    have hv : ∀ (fuel1 : Nat) (rest1 : List Nat), v.need ≤ fuel1 → NumEnd rest1 →
        parseValue fuel1 (depth + 1) (render v ++ rest1) = some (v, rest1) :=
      fun fuel1 rest1 h1 h2 =>
        parseValue_render v fuel1 (depth + 1) rest1 hwf.1 h1 (by omega) h2
    have he := parseElems_render vs v f (depth + 1) rest hv hwf.2 (by omega) (by omega)
    obtain ⟨b, tl, e, hsp, hne⟩ := render_head v hwf.1
    rw [e] at he
    simp only [List.cons_append] at he
    have c1 : ¬ (0x5B : Nat) = 0x22 := by decide
    simp only [render, e, List.cons_append, List.append_assoc, parseValue, c1, if_false,
      if_true, hlt, skipWs_cons _ _ hsp, hne]
    simp only [List.append_assoc] at he
    rw [he]
  | .obj [], fuel, depth, rest, _, hf, hd, _ => by
    obtain ⟨f, rfl⟩ : ∃ f, fuel = f + 1 := ⟨fuel - 1, by simp [JVal.need] at hf; omega⟩
    have hlt : depth < maxNestingDepth := by simp [JVal.height] at hd; omega
    simp [render, parseValue, hlt, skipWs, isSpace]
  | .obj ((k, v) :: ms), fuel, depth, rest, hwf, hf, hd, _ => by
    obtain ⟨f, rfl⟩ : ∃ f, fuel = f + 1 :=
      ⟨fuel - 1, by simp [JVal.need, needMembers] at hf; omega⟩
    simp only [JVal.need, needMembers] at hf
    simp only [JVal.height, heightMembers] at hd
    simp only [JVal.WF, WFMembers] at hwf
    have hm1 := le_max_left v.height (heightMembers ms)
    have hm2 := le_max_right v.height (heightMembers ms)
    have hlt : depth < maxNestingDepth := by omega
    have hv : ∀ (fuel1 : Nat) (rest1 : List Nat), v.need ≤ fuel1 → NumEnd rest1 →
        parseValue fuel1 (depth + 1) (render v ++ rest1) = some (v, rest1) :=
      fun fuel1 rest1 h1 h2 =>
        parseValue_render v fuel1 (depth + 1) rest1 hwf.1 h1 (by omega) h2
    have he := parseMembers_render ms k v f (depth + 1) rest hv hwf.1 hwf.2 (by omega) (by omega)
    have c1 : ¬ (0x7B : Nat) = 0x22 := by decide
    have c2 : ¬ (0x7B : Nat) = 0x5B := by decide
    have c3 : ¬ (0x22 : Nat) = 0x7D := by decide
    have hsp : isSpace 0x22 = false := by decide
    simp only [encodeString, List.cons_append, List.append_assoc, List.nil_append] at he
    simp only [render, encodeString, List.cons_append, List.append_assoc, List.nil_append,
      parseValue, c1, c2, c3,
      if_false, if_true, hlt, skipWs_cons _ _ hsp]
    rw [he]
/-- Reading back the elements of a rendered array. -/
theorem parseElems_render : ∀ (vs : List JVal) (v : JVal) (fuel depth : Nat) (rest : List Nat),
    (∀ (fuel1 : Nat) (rest1 : List Nat), v.need ≤ fuel1 → NumEnd rest1 →
      parseValue fuel1 depth (render v ++ rest1) = some (v, rest1)) →
    WFList vs → v.need + needList vs + 1 ≤ fuel → depth + heightList vs ≤ maxNestingDepth →
    parseElems fuel depth (render v ++ renderElems vs ++ rest) = some (v :: vs, rest)
  | [], v, fuel, depth, rest, hv, _, hf, _ => by
    obtain ⟨f, rfl⟩ : ∃ f, fuel = f + 1 := ⟨fuel - 1, by omega⟩
    have h1 := hv f (0x5D :: rest) (by omega) (numEnd_cons _ _ (by simp))
    simp only [renderElems, List.append_assoc, List.cons_append, List.nil_append]
    simp [parseElems, h1, skipWs, isSpace]
  | w :: ws, v, fuel, depth, rest, hv, hwf, hf, hd => by
    obtain ⟨f, rfl⟩ : ∃ f, fuel = f + 1 := ⟨fuel - 1, by omega⟩
    simp only [needList] at hf
    simp only [heightList] at hd
    simp only [WFList] at hwf
    have hm1 := le_max_left w.height (heightList ws)
    have hm2 := le_max_right w.height (heightList ws)
    have h1 := hv f (0x2C :: (render w ++ renderElems ws ++ rest)) (by omega)
      (numEnd_cons _ _ (by simp))
    have hw : ∀ (fuel1 : Nat) (rest1 : List Nat), w.need ≤ fuel1 → NumEnd rest1 →
        parseValue fuel1 depth (render w ++ rest1) = some (w, rest1) :=
      fun fuel1 rest1 h1 h2 =>
        parseValue_render w fuel1 depth rest1 hwf.1 h1 (by omega) h2
    have he := parseElems_render ws w f depth rest hw hwf.2 (by omega) (by omega)
    obtain ⟨b, tl, e, hsp, _⟩ := render_head w hwf.1
    have hsk : skipWs (render w ++ renderElems ws ++ rest) = render w ++ renderElems ws ++ rest := by
      rw [e]
      exact skipWs_cons _ _ hsp
    have hsp2 : isSpace 0x2C = false := by decide
    simp only [renderElems, List.append_assoc, List.cons_append] at h1 hsk he ⊢
    simp only [parseElems, h1, skipWs_cons _ _ hsp2, if_true, hsk, he]
/-- Reading back the members of a rendered object. -/
theorem parseMembers_render : ∀ (ms : List (String × JVal)) (k : String) (v : JVal)
    (fuel depth : Nat) (rest : List Nat),
    (∀ (fuel1 : Nat) (rest1 : List Nat), v.need ≤ fuel1 → NumEnd rest1 →
      parseValue fuel1 depth (render v ++ rest1) = some (v, rest1)) →
    v.WF → WFMembers ms → v.need + needMembers ms + 1 ≤ fuel →
    depth + heightMembers ms ≤ maxNestingDepth →
    parseMembers fuel depth (encodeString k ++ 0x3A :: (render v ++ renderMembers ms) ++ rest)
      = some ((k, v) :: ms, rest)
  | [], k, v, fuel, depth, rest, hv, hwfv, _, hf, _ => by
    obtain ⟨f, rfl⟩ : ∃ f, fuel = f + 1 := ⟨fuel - 1, by omega⟩
    have h1 := hv f (0x7D :: rest) (by omega) (numEnd_cons _ _ (by simp))
    obtain ⟨b, tl, e, hsp, _⟩ := render_head v hwfv
    have hsk : skipWs (render v ++ 0x7D :: rest) = render v ++ 0x7D :: rest := by
      rw [e]
      exact skipWs_cons _ _ hsp
    have hsp2 : isSpace 0x3A = false := by decide
    have hsp3 : isSpace 0x7D = false := by decide
    have c1 : ¬ (0x7D : Nat) = 0x2C := by decide
    simp only [renderMembers, encodeString, List.append_assoc, List.cons_append,
      List.nil_append]
    simp only [parseMembers, if_true, parseString_encodeString, skipWs_cons _ _ hsp2, hsk, h1,
      skipWs_cons _ _ hsp3, c1, if_false]
  | (k2, w) :: ws, k, v, fuel, depth, rest, hv, hwfv, hwf, hf, hd => by
    obtain ⟨f, rfl⟩ : ∃ f, fuel = f + 1 := ⟨fuel - 1, by omega⟩
    simp only [needMembers] at hf
    simp only [heightMembers] at hd
    simp only [WFMembers] at hwf
    have hm1 := le_max_left w.height (heightMembers ws)
    have hm2 := le_max_right w.height (heightMembers ws)
    have h1 := hv f (0x2C :: (encodeString k2 ++ 0x3A :: (render w ++ renderMembers ws) ++ rest))
      (by omega) (numEnd_cons _ _ (by simp))
    have hw : ∀ (fuel1 : Nat) (rest1 : List Nat), w.need ≤ fuel1 → NumEnd rest1 →
        parseValue fuel1 depth (render w ++ rest1) = some (w, rest1) :=
      fun fuel1 rest1 h1 h2 =>
        parseValue_render w fuel1 depth rest1 hwf.1 h1 (by omega) h2
    have he := parseMembers_render ws k2 w f depth rest hw hwf.1 hwf.2 (by omega) (by omega)
    obtain ⟨b, tl, e, hsp, _⟩ := render_head v hwfv
    have hsk : ∀ t, skipWs (render v ++ t) = render v ++ t := by
      intro t
      rw [e]
      exact skipWs_cons _ _ hsp
    have hsp2 : isSpace 0x3A = false := by decide
    have hsp3 : isSpace 0x2C = false := by decide
    have hsp4 : isSpace 0x22 = false := by decide
    simp only [renderMembers, encodeString, List.append_assoc, List.cons_append,
      List.nil_append] at h1 he ⊢
    simp only [parseMembers, if_true, parseString_encodeString, skipWs_cons _ _ hsp2, hsk, h1,
      skipWs_cons _ _ hsp3, skipWs_cons _ _ hsp4, he]
end

mutual
theorem need_le_length : ∀ (v : JVal), v.WF → v.need ≤ (render v).length
  | .null, _ => by simp [JVal.need, render]
  | .bool true, _ => by simp [JVal.need, render]
  | .bool false, _ => by simp [JVal.need, render]
  | .str s, _ => by simp [JVal.need, render, encodeString]
  | .num raw, hwf => by
    obtain ⟨i, rfl⟩ := hwf
    obtain ⟨b, tl, e, _⟩ := formatInt_head i
    simp [JVal.need, render, e]
  | .arr [], _ => by simp [JVal.need, render, needList]
  | .arr (v :: vs), hwf => by
    simp only [JVal.WF, WFList] at hwf
    have h1 := need_le_length v hwf.1
    have h2 := needList_le_length vs hwf.2
    simp only [JVal.need, needList, render, List.length_cons, List.length_append]
    omega
  | .obj [], _ => by simp [JVal.need, render, needMembers]
  | .obj ((k, v) :: ms), hwf => by
    simp only [JVal.WF, WFMembers] at hwf
    have h1 := need_le_length v hwf.1
    have h2 := needMembers_le_length ms hwf.2
    simp only [JVal.need, needMembers, render, List.length_cons, List.length_append]
    omega
theorem needList_le_length : ∀ (vs : List JVal), WFList vs →
    needList vs + 1 ≤ (renderElems vs).length
  | [], _ => by simp [needList, renderElems]
  | v :: vs, hwf => by
    simp only [WFList] at hwf
    have h1 := need_le_length v hwf.1
    have h2 := needList_le_length vs hwf.2
    simp only [needList, renderElems, List.length_cons, List.length_append]
    omega
theorem needMembers_le_length : ∀ (ms : List (String × JVal)), WFMembers ms →
    needMembers ms + 1 ≤ (renderMembers ms).length
  | [], _ => by simp [needMembers, renderMembers]
  | (k, v) :: ms, hwf => by
    simp only [WFMembers] at hwf
    have h1 := need_le_length v hwf.1
    have h2 := needMembers_le_length ms hwf.2
    simp only [needMembers, renderMembers, List.length_cons, List.length_append]
    omega
end

/-- A rendered value, as a whole text, denotes that value. -/
theorem parseJson_render (v : JVal) (hwf : v.WF) (hd : v.height ≤ maxNestingDepth) :
    parseJson (render v) = some v := by
  obtain ⟨b, tl, e, hsp, _⟩ := render_head v hwf
  have hs : skipWs (render v) = render v := by
    rw [e]
    exact skipWs_cons _ _ hsp
  have hn := need_le_length v hwf
  have hp := parseValue_render v (2 * (render v).length + 2) 0 [] hwf (by omega) (by omega)
    numEnd_nil
  rw [List.append_nil] at hp
  simp [parseJson, hs, hp, skipWs]

/-! ## Lemmas: base64 -/

theorem b64Val_b64Char (i : Nat) (h : i < 64) : b64Val (b64Char i) = some i := by
  unfold b64Char b64Val
  by_cases h1 : i < 26
  · have a : 65 ≤ 65 + i ∧ 65 + i ≤ 90 := by omega
    simp only [h1, if_true, a, and_self]
    congr 1
    omega
  by_cases h2 : i < 52
  · have a : ¬ (65 ≤ 97 + (i - 26) ∧ 97 + (i - 26) ≤ 90) := by omega
    have b : 97 ≤ 97 + (i - 26) ∧ 97 + (i - 26) ≤ 122 := by omega
    simp only [h1, h2, if_false, if_true, a, b, and_self]
    congr 1
    omega
  by_cases h3 : i < 62
  · have a : ¬ (65 ≤ 48 + (i - 52) ∧ 48 + (i - 52) ≤ 90) := by omega
    have b : ¬ (97 ≤ 48 + (i - 52) ∧ 48 + (i - 52) ≤ 122) := by omega
    have c : 48 ≤ 48 + (i - 52) ∧ 48 + (i - 52) ≤ 57 := by omega
    simp only [h1, h2, h3, if_false, if_true, a, b, c, and_self]
    congr 1
    omega
  by_cases h4 : i = 62
  · subst h4
    decide
  · have h5 : i = 63 := by omega
    subst h5
    decide

/-- A symbol of the alphabet is a letter, a digit, `+` or `/`. -/
theorem b64Char_range (i : Nat) :
    b64Char i = 43 ∨ (47 ≤ b64Char i ∧ b64Char i ≤ 57) ∨ (65 ≤ b64Char i ∧ b64Char i ≤ 90)
      ∨ (97 ≤ b64Char i ∧ b64Char i ≤ 122) := by
  unfold b64Char
  split_ifs <;> omega

/-- Every byte of a base64 text is a symbol of the alphabet or the padding. -/
theorem b64Encode_range : ∀ (bs : List Nat), ∀ c ∈ b64Encode bs,
    c = 43 ∨ (47 ≤ c ∧ c ≤ 57) ∨ c = 61 ∨ (65 ≤ c ∧ c ≤ 90) ∨ (97 ≤ c ∧ c ≤ 122)
  | [], c, hc => by simp [b64Encode] at hc
  | [a], c, hc => by
    simp only [b64Encode, List.mem_cons, List.mem_singleton, List.not_mem_nil, or_false] at hc
    have r1 := b64Char_range (a / 4)
    have r2 := b64Char_range (a % 4 * 16)
    rcases hc with rfl | rfl | rfl | rfl <;> omega
  | [a, b], c, hc => by
    simp only [b64Encode, List.mem_cons, List.mem_singleton, List.not_mem_nil, or_false] at hc
    have r1 := b64Char_range (a / 4)
    have r2 := b64Char_range (a % 4 * 16 + b / 16)
    have r3 := b64Char_range (b % 16 * 4)
    rcases hc with rfl | rfl | rfl | rfl <;> omega
  | a :: b :: d :: rest, c, hc => by
    simp only [b64Encode, List.mem_cons] at hc
    have r1 := b64Char_range (a / 4)
    have r2 := b64Char_range (a % 4 * 16 + b / 16)
    have r3 := b64Char_range (b % 16 * 4 + d / 64)
    have r4 := b64Char_range (d % 64)
    rcases hc with rfl | rfl | rfl | rfl | hc
    · omega
    · omega
    · omega
    · omega
    · exact b64Encode_range rest c hc

theorem b64DecodeQuanta_b64Encode : ∀ (bs : List Nat), (∀ b ∈ bs, b < 256) →
    b64DecodeQuanta (b64Encode bs) = some bs
  | [], _ => rfl
  | [a], h => by
    have ha : a < 256 := h a (by simp)
    have r2 := b64Char_range (a % 4 * 16)
    simp only [b64Encode, b64DecodeQuanta, b64Val_b64Char (a / 4) (by omega),
      b64Val_b64Char (a % 4 * 16) (by omega), if_true, and_self]
    congr 2
    omega
  | [a, b], h => by
    have ha : a < 256 := h a (by simp)
    have hb : b < 256 := h b (by simp)
    have r3 := b64Char_range (b % 16 * 4)
    have c3 : ¬ b64Char (b % 16 * 4) = 61 := by omega
    simp only [b64Encode, b64DecodeQuanta, b64Val_b64Char (a / 4) (by omega),
      b64Val_b64Char (a % 4 * 16 + b / 16) (by omega), b64Val_b64Char (b % 16 * 4) (by omega),
      if_true, if_false, c3]
    have e1 : a / 4 * 4 + (a % 4 * 16 + b / 16) / 16 = a := by omega
    have e2 : (a % 4 * 16 + b / 16) % 16 * 16 + b % 16 * 4 / 4 = b := by omega
    rw [e1, e2]
  | a :: b :: d :: rest, h => by
    have ha : a < 256 := h a (by simp)
    have hb : b < 256 := h b (by simp)
    have hd : d < 256 := h d (by simp)
    have ih := b64DecodeQuanta_b64Encode rest (fun x hx => h x (by simp [hx]))
    have r3 := b64Char_range (b % 16 * 4 + d / 64)
    have r4 := b64Char_range (d % 64)
    have c3 : ¬ b64Char (b % 16 * 4 + d / 64) = 61 := by omega
    have c4 : ¬ b64Char (d % 64) = 61 := by omega
    simp only [b64Encode, b64DecodeQuanta, b64Val_b64Char (a / 4) (by omega),
      b64Val_b64Char (a % 4 * 16 + b / 16) (by omega),
      b64Val_b64Char (b % 16 * 4 + d / 64) (by omega), b64Val_b64Char (d % 64) (by omega),
      if_false, c3, c4, ih]
    have e1 : a / 4 * 4 + (a % 4 * 16 + b / 16) / 16 = a := by omega
    have e2 : (a % 4 * 16 + b / 16) % 16 * 16 + (b % 16 * 4 + d / 64) / 4 = b := by omega
    have e3 : (b % 16 * 4 + d / 64) % 4 * 64 + d % 64 = d := by omega
    rw [e1, e2, e3]

/-- Decoding the base64 text of a byte sequence gives the bytes back. -/
theorem b64Decode_b64Encode (bs : List Nat) (h : ∀ b ∈ bs, b < 256) :
    b64Decode (b64Encode bs) = some bs := by
  unfold b64Decode
  have hf : (b64Encode bs).filter (fun c => c ≠ 10 ∧ c ≠ 13) = b64Encode bs := by
    apply List.filter_eq_self.mpr
    intro c hc
    have := b64Encode_range bs c hc
    simp only [ne_eq, decide_eq_true_eq]
    omega
  rw [hf]
  exact b64DecodeQuanta_b64Encode bs h

/-- The code point of the rune made from a number below the surrogates. -/
theorem toNat_ofNat_small (n : Nat) (h : n < 0xD800) : (Char.ofNat n).toNat = n := by
  have hv : n.isValidChar := Or.inl h
  unfold Char.ofNat
  rw [dif_pos hv]
  simp only [Char.ofNatAux, Char.toNat]
  show (UInt32.ofNat' n _).toNat = n
  simp [UInt32.ofNat', UInt32.toNat]

/-- The string holding a base64 text gives the text back, byte for byte. -/
theorem b64_chars (bs : List Nat) :
    ((b64Encode bs).map Char.ofNat).map Char.toNat = b64Encode bs := by
  have key : ∀ l : List Nat, (∀ c ∈ l, c < 0xD800) → (l.map Char.ofNat).map Char.toNat = l := by
    intro l
    induction l with
    | nil => intro _; rfl
    | cons c l ih =>
      intro h
      simp only [List.map_cons]
      rw [toNat_ofNat_small c (h c (by simp)), ih (fun x hx => h x (by simp [hx]))]
  apply key
  intro c hc
  have := b64Encode_range bs c hc
  omega

/-! ## Lemmas: the fuel of the reader is enough -/

theorem skipWs_length (i : List Nat) : (skipWs i).length ≤ i.length := by
  induction i with
  | nil => simp [skipWs]
  | cons b t ih =>
    simp only [skipWs]
    split
    · simp only [List.length_cons]; omega
    · simp

theorem getu4_length (i : List Nat) (n : Nat) (r : List Nat) (h : getu4 i = some (n, r)) :
    r.length + 4 = i.length := by
  unfold getu4 at h
  split at h
  · split at h
    · simp only [Option.some.injEq, Prod.mk.injEq] at h
      obtain ⟨_, rfl⟩ := h
      simp
    · simp at h
  · simp at h

theorem decodeRune_length (b : Nat) (rest : List Nat) :
    (decodeRune (b :: rest)).2.length ≤ rest.length := by
  rcases rest with _ | ⟨b1, _ | ⟨b2, _ | ⟨b3, r3⟩⟩⟩ <;> simp only [decodeRune] <;>
    (repeat' split) <;> simp only [List.length_cons, List.length_nil] <;> omega

theorem escapedRune_length (rr : Nat) (rest : List Nat) :
    (escapedRune rr rest).2.length ≤ rest.length := by
  unfold escapedRune
  split
  · split
    · next rest1 =>
      split
      · next rr1 rest2 hg =>
        have := getu4_length _ _ _ hg
        split
        · simp only [List.length_cons]; omega
        · simp
      · simp
    · simp
  · simp

theorem consRune_some (c : Char) (x : Option (List Char × List Nat)) (cs : List Char)
    (r : List Nat) (h : consRune c x = some (cs, r)) : ∃ cs1, x = some (cs1, r) := by
  cases x with
  | none => simp [consRune] at h
  | some p =>
    obtain ⟨cs1, r1⟩ := p
    simp only [consRune, Option.some.injEq, Prod.mk.injEq] at h
    exact ⟨cs1, by rw [h.2]⟩

/-- A string literal is read up to and including its closing quote. -/
theorem parseStringBody_length (f : Nat) : ∀ (i : List Nat) (cs : List Char) (r : List Nat),
    parseStringBody f i = some (cs, r) → r.length < i.length := by
  induction f with
  | zero => intro i cs r h; simp [parseStringBody] at h
  | succ f ih =>
    intro i cs r h
    cases i with
    | nil => simp [parseStringBody] at h
    | cons b rest =>
      simp only [parseStringBody] at h
      split at h
      · simp only [Option.some.injEq, Prod.mk.injEq] at h
        obtain ⟨_, rfl⟩ := h
        simp
      · split at h
        · split at h
          · simp at h
          · next e rest1 =>
            split at h
            · split at h
              · simp at h
              · next rr rest2 hg =>
                obtain ⟨cs1, h1⟩ := consRune_some _ _ _ _ h
                have l1 := ih _ _ _ h1
                have l2 := escapedRune_length rr rest2
                have l3 := getu4_length _ _ _ hg
                simp only [List.length_cons]
                omega
            · split at h
              · simp at h
              · obtain ⟨cs1, h1⟩ := consRune_some _ _ _ _ h
                have l1 := ih _ _ _ h1
                simp only [List.length_cons]
                omega
        · split at h
          · simp at h
          · split at h
            · obtain ⟨cs1, h1⟩ := consRune_some _ _ _ _ h
              have l1 := ih _ _ _ h1
              simp only [List.length_cons]
              omega
            · obtain ⟨cs1, h1⟩ := consRune_some _ _ _ _ h
              have l1 := ih _ _ _ h1
              have l2 := decodeRune_length b rest
              simp only [List.length_cons]
              omega

/-- More fuel than the length of the input does not change what is read of a
string literal. -/
theorem parseStringBody_fuel (f : Nat) : ∀ (i : List Nat), i.length < f →
    parseStringBody (f + 1) i = parseStringBody f i := by
  induction f with
  | zero => intro i h; omega
  | succ f ih =>
    intro i h
    cases i with
    | nil => simp [parseStringBody]
    | cons b rest =>
      simp only [List.length_cons] at h
      have l2 := decodeRune_length b rest
      simp only [parseStringBody]
      split
      · rfl
      · split
        · split
          · rfl
          · next e rest1 =>
            simp only [List.length_cons] at h
            split
            · split
              · rfl
              · next rr rest2 hg =>
                have l1 := escapedRune_length rr rest2
                have l3 := getu4_length _ _ _ hg
                rw [ih _ (by omega)]
            · split
              · rfl
              · rw [ih _ (by omega)]
        · split
          · rfl
          · split
            · rw [ih _ (by omega)]
            · rw [ih _ (by omega)]

theorem parseStringBody_fuel_le (i : List Nat) (f : Nat) (h : i.length + 1 ≤ f) :
    parseStringBody f i = parseStringBody (i.length + 1) i := by
  induction f with
  | zero => omega
  | succ f ih =>
    by_cases hf : i.length + 1 ≤ f
    · rw [parseStringBody_fuel f i (by omega), ih hf]
    · have : f = i.length := by omega
      rw [this]

theorem parseString_length (i : List Nat) (s : String) (r : List Nat)
    (h : parseString i = some (s, r)) : r.length < i.length := by
  unfold parseString at h
  split at h
  · next cs r1 hb =>
    simp only [Option.some.injEq, Prod.mk.injEq] at h
    obtain ⟨_, rfl⟩ := h
    exact parseStringBody_length _ _ _ _ hb
  · simp at h

theorem spanDigits_length (i : List Nat) : (spanDigits i).2.length ≤ i.length := by
  induction i with
  | nil => simp [spanDigits]
  | cons b t ih =>
    simp only [spanDigits]
    split
    · simp only [List.length_cons]; omega
    · simp

theorem scanInt_length (i ip r : List Nat) (h : scanInt i = some (ip, r)) :
    r.length < i.length := by
  cases i with
  | nil => simp [scanInt] at h
  | cons d rest =>
    have l := spanDigits_length rest
    simp only [scanInt] at h
    split at h
    · simp only [Option.some.injEq, Prod.mk.injEq] at h
      obtain ⟨_, rfl⟩ := h
      simp
    · split at h
      · simp only [Option.some.injEq, Prod.mk.injEq] at h
        obtain ⟨_, rfl⟩ := h
        simp only [List.length_cons]
        omega
      · simp at h

theorem scanFrac_length (i fp r : List Nat) (h : scanFrac i = some (fp, r)) :
    r.length ≤ i.length := by
  unfold scanFrac at h
  split at h
  · next rest =>
    have l := spanDigits_length rest
    split at h
    · simp at h
    · next ds r1 _ hs =>
      simp only [Option.some.injEq, Prod.mk.injEq] at h
      obtain ⟨_, rfl⟩ := h
      rw [hs] at l
      simp only [List.length_cons]
      simp only at l
      omega
  · simp only [Option.some.injEq, Prod.mk.injEq] at h
    obtain ⟨_, rfl⟩ := h
    exact Nat.le_refl _

theorem scanExp_length (i ep r : List Nat) (h : scanExp i = some (ep, r)) :
    r.length ≤ i.length := by
  unfold scanExp at h
  split at h
  · simp only [Option.some.injEq, Prod.mk.injEq] at h
    obtain ⟨_, rfl⟩ := h
    exact Nat.le_refl _
  · next e rest =>
    split at h
    · split at h
      · simp at h
      · next s rest1 =>
        have l1 := spanDigits_length rest1
        have l2 := spanDigits_length (s :: rest1)
        split at h
        · split at h
          · simp at h
          · next ds r1 _ hs =>
            simp only [Option.some.injEq, Prod.mk.injEq] at h
            obtain ⟨_, rfl⟩ := h
            rw [hs] at l1
            simp only [List.length_cons]
            simp only at l1
            omega
        · split at h
          · simp at h
          · next ds r1 _ hs =>
            simp only [Option.some.injEq, Prod.mk.injEq] at h
            obtain ⟨_, rfl⟩ := h
            rw [hs] at l2
            simp only [List.length_cons] at l2 ⊢
            omega
    · simp only [Option.some.injEq, Prod.mk.injEq] at h
      obtain ⟨_, rfl⟩ := h
      exact Nat.le_refl _

/-- A number literal takes at least one byte of the input. -/
theorem scanNumber_length (i raw r : List Nat) (h : scanNumber i = some (raw, r)) :
    r.length < i.length := by
  unfold scanNumber at h
  simp only at h
  have hs : (match i with
      | 0x2D :: rest => (([0x2D] : List Nat), rest)
      | _ => ([], i)).2.length ≤ i.length := by
    split
    · simp
    · exact Nat.le_refl _
  split at h
  · simp at h
  · next ip r1 h1 =>
    have l1 := scanInt_length _ _ _ h1
    split at h
    · simp at h
    · next fp r2 h2 =>
      have l2 := scanFrac_length _ _ _ h2
      split at h
      · simp at h
      · next ep r3 h3 =>
        have l3 := scanExp_length _ _ _ h3
        simp only [Option.some.injEq, Prod.mk.injEq] at h
        obtain ⟨_, rfl⟩ := h
        omega

theorem expectLit_length (lit : List Nat) : ∀ (i r : List Nat), expectLit lit i = some r →
    r.length ≤ i.length := by
  induction lit with
  | nil =>
    intro i r h
    simp only [expectLit, Option.some.injEq] at h
    rw [h]
  | cons l ls ih =>
    intro i r h
    cases i with
    | nil => simp [expectLit] at h
    | cons b rest =>
      simp only [expectLit] at h
      split at h
      · have := ih _ _ h
        simp only [List.length_cons]
        omega
      · simp at h

/-- What is left after a value, an element list or a member list is shorter
than the input. -/
theorem parse_length (f : Nat) :
    (∀ (d : Nat) (i : List Nat) (v : JVal) (r : List Nat),
      parseValue f d i = some (v, r) → r.length < i.length)
    ∧ (∀ (d : Nat) (i : List Nat) (vs : List JVal) (r : List Nat),
      parseElems f d i = some (vs, r) → r.length < i.length)
    ∧ (∀ (d : Nat) (i : List Nat) (ms : List (String × JVal)) (r : List Nat),
      parseMembers f d i = some (ms, r) → r.length < i.length) := by
  induction f with
  | zero =>
    refine ⟨?_, ?_, ?_⟩ <;> intro d i v r h
    · simp [parseValue] at h
    · simp [parseElems] at h
    · simp [parseMembers] at h
  | succ f ih =>
    obtain ⟨ihv, ihe, ihm⟩ := ih
    refine ⟨?_, ?_, ?_⟩
    · intro d i v r h
      cases i with
      | nil => simp [parseValue] at h
      | cons b rest =>
        have lw := skipWs_length rest
        simp only [parseValue] at h
        split at h
        · split at h
          · next s r1 hs =>
            simp only [Option.some.injEq, Prod.mk.injEq] at h
            obtain ⟨_, rfl⟩ := h
            have := parseString_length _ _ _ hs
            simp only [List.length_cons]
            omega
          · simp at h
        split at h
        · split at h
          · split at h
            · simp at h
            · next c r1 hsk =>
              rw [hsk] at lw
              simp only [List.length_cons] at lw
              split at h
              · simp only [Option.some.injEq, Prod.mk.injEq] at h
                obtain ⟨_, rfl⟩ := h
                simp only [List.length_cons]
                omega
              · split at h
                · next vs r2 he =>
                  simp only [Option.some.injEq, Prod.mk.injEq] at h
                  obtain ⟨_, rfl⟩ := h
                  have := ihe _ _ _ _ he
                  simp only [List.length_cons] at this ⊢
                  omega
                · simp at h
          · simp at h
        split at h
        · split at h
          · split at h
            · simp at h
            · next c r1 hsk =>
              rw [hsk] at lw
              simp only [List.length_cons] at lw
              split at h
              · simp only [Option.some.injEq, Prod.mk.injEq] at h
                obtain ⟨_, rfl⟩ := h
                simp only [List.length_cons]
                omega
              · split at h
                · next ms r2 he =>
                  simp only [Option.some.injEq, Prod.mk.injEq] at h
                  obtain ⟨_, rfl⟩ := h
                  have := ihm _ _ _ _ he
                  simp only [List.length_cons] at this ⊢
                  omega
                · simp at h
          · simp at h
        split at h
        · split at h
          · next r1 hl =>
            simp only [Option.some.injEq, Prod.mk.injEq] at h
            obtain ⟨_, rfl⟩ := h
            have := expectLit_length _ _ _ hl
            simp only [List.length_cons]
            omega
          · simp at h
        split at h
        · split at h
          · next r1 hl =>
            simp only [Option.some.injEq, Prod.mk.injEq] at h
            obtain ⟨_, rfl⟩ := h
            have := expectLit_length _ _ _ hl
            simp only [List.length_cons]
            omega
          · simp at h
        split at h
        · split at h
          · next r1 hl =>
            simp only [Option.some.injEq, Prod.mk.injEq] at h
            obtain ⟨_, rfl⟩ := h
            have := expectLit_length _ _ _ hl
            simp only [List.length_cons]
            omega
          · simp at h
        split at h
        · split at h
          · next raw r1 hn =>
            simp only [Option.some.injEq, Prod.mk.injEq] at h
            obtain ⟨_, rfl⟩ := h
            exact scanNumber_length _ _ _ hn
          · simp at h
        · simp at h
    · intro d i vs r h
      simp only [parseElems] at h
      split at h
      · simp at h
      · next v rest hv =>
        have l1 := ihv _ _ _ _ hv
        have lw := skipWs_length rest
        split at h
        · simp at h
        · next c r1 hsk =>
          rw [hsk] at lw
          simp only [List.length_cons] at lw
          have lw2 := skipWs_length r1
          split at h
          · split at h
            · next vs1 r2 he =>
              simp only [Option.some.injEq, Prod.mk.injEq] at h
              obtain ⟨_, rfl⟩ := h
              have := ihe _ _ _ _ he
              omega
            · simp at h
          · split at h
            · simp only [Option.some.injEq, Prod.mk.injEq] at h
              obtain ⟨_, rfl⟩ := h
              omega
            · simp at h
    · intro d i ms r h
      cases i with
      | nil => simp [parseMembers] at h
      | cons q input =>
        simp only [parseMembers] at h
        split at h
        · split at h
          · simp at h
          · next k rest hs =>
            have l0 := parseString_length _ _ _ hs
            have lw := skipWs_length rest
            split at h
            · simp at h
            · next c r1 hsk =>
              rw [hsk] at lw
              simp only [List.length_cons] at lw
              have lw2 := skipWs_length r1
              split at h
              · split at h
                · simp at h
                · next v rest1 hv =>
                  have l1 := ihv _ _ _ _ hv
                  have lw3 := skipWs_length rest1
                  split at h
                  · simp at h
                  · next c1 r2 hsk2 =>
                    rw [hsk2] at lw3
                    simp only [List.length_cons] at lw3
                    have lw4 := skipWs_length r2
                    split at h
                    · split at h
                      · next ms1 r3 he =>
                        simp only [Option.some.injEq, Prod.mk.injEq] at h
                        obtain ⟨_, rfl⟩ := h
                        have := ihm _ _ _ _ he
                        simp only [List.length_cons]
                        omega
                      · simp at h
                    · split at h
                      · simp only [Option.some.injEq, Prod.mk.injEq] at h
                        obtain ⟨_, rfl⟩ := h
                        simp only [List.length_cons]
                        omega
                      · simp at h
              · simp at h
        · simp at h

theorem parseElems_succ (f d : Nat) (i : List Nat) :
    parseElems (f + 1) d i =
      match parseValue f d i with
      | none => none
      | some (v, rest) =>
        match skipWs rest with
        | [] => none
        | c :: r =>
          if c = 0x2C then
            match parseElems f d (skipWs r) with
            | some (vs, r1) => some (v :: vs, r1)
            | none => none
          else if c = 0x5D then some ([v], r)
          else none := by
  rw [parseElems]

theorem parseMembers_succ (f d q : Nat) (input : List Nat) :
    parseMembers (f + 1) d (q :: input) =
      if q = 0x22 then
        match parseString input with
        | none => none
        | some (k, rest) =>
          match skipWs rest with
          | [] => none
          | c :: r =>
            if c = 0x3A then
              match parseValue f d (skipWs r) with
              | none => none
              | some (v, rest1) =>
                match skipWs rest1 with
                | [] => none
                | c1 :: r1 =>
                  if c1 = 0x2C then
                    match parseMembers f d (skipWs r1) with
                    | some (ms, r2) => some ((k, v) :: ms, r2)
                    | none => none
                  else if c1 = 0x7D then some ([(k, v)], r1)
                  else none
            else none
      else none := by
  rw [parseMembers]

/-- One more unit of fuel does not change what is read, once the fuel exceeds
twice the length of the input. -/
theorem parse_fuel (f : Nat) :
    (∀ (d : Nat) (i : List Nat), 2 * i.length + 2 ≤ f →
      parseValue (f + 1) d i = parseValue f d i)
    ∧ (∀ (d : Nat) (i : List Nat), 2 * i.length + 3 ≤ f →
      parseElems (f + 1) d i = parseElems f d i)
    ∧ (∀ (d : Nat) (i : List Nat), 2 * i.length + 3 ≤ f →
      parseMembers (f + 1) d i = parseMembers f d i) := by
  induction f with
  | zero =>
    refine ⟨?_, ?_, ?_⟩ <;> intro d i h <;> omega
  | succ f ih =>
    obtain ⟨ihv, ihe, ihm⟩ := ih
    refine ⟨?_, ?_, ?_⟩
    · intro d i h
      cases i with
      | nil => simp [parseValue]
      | cons b rest =>
        simp only [List.length_cons] at h
        have lw := skipWs_length rest
        have he : ∀ c r, skipWs rest = c :: r →
            parseElems (f + 1) (d + 1) (c :: r) = parseElems f (d + 1) (c :: r) := by
          intro c r hsk
          rw [hsk] at lw
          exact ihe _ _ (by simp only [List.length_cons] at lw ⊢; omega)
        have hm : ∀ c r, skipWs rest = c :: r →
            parseMembers (f + 1) (d + 1) (c :: r) = parseMembers f (d + 1) (c :: r) := by
          intro c r hsk
          rw [hsk] at lw
          exact ihm _ _ (by simp only [List.length_cons] at lw ⊢; omega)
        simp only [parseValue]
        cases hsk : skipWs rest with
        | nil => rfl
        | cons c r => simp only [he c r hsk, hm c r hsk]
    · intro d i h
      rw [parseElems_succ (f + 1), parseElems_succ f, ihv d i (by omega)]
      cases hv : parseValue f d i with
      | none => rfl
      | some p =>
        obtain ⟨v, rest⟩ := p
        have l1 := (parse_length f).1 _ _ _ _ hv
        have lw := skipWs_length rest
        simp only
        cases hsk : skipWs rest with
        | nil => rfl
        | cons c r1 =>
          rw [hsk] at lw
          simp only [List.length_cons] at lw
          have lw2 := skipWs_length r1
          simp only
          rw [ihe d (skipWs r1) (by omega)]
    · intro d i h
      cases i with
      | nil => simp [parseMembers]
      | cons q input =>
        simp only [List.length_cons] at h
        rw [parseMembers_succ (f + 1), parseMembers_succ f]
        cases hs : parseString input with
        | none => rfl
        | some p =>
          obtain ⟨k, rest⟩ := p
          have l0 := parseString_length _ _ _ hs
          have lw := skipWs_length rest
          simp only
          cases hsk : skipWs rest with
          | nil => rfl
          | cons c r =>
            rw [hsk] at lw
            simp only [List.length_cons] at lw
            have lw2 := skipWs_length r
            simp only
            rw [ihv d (skipWs r) (by omega)]
            cases hv : parseValue f d (skipWs r) with
            | none => rfl
            | some p1 =>
              obtain ⟨v, rest1⟩ := p1
              have l1 := (parse_length f).1 _ _ _ _ hv
              have lw3 := skipWs_length rest1
              simp only
              cases hsk2 : skipWs rest1 with
              | nil => rfl
              | cons c1 r1 =>
                rw [hsk2] at lw3
                simp only [List.length_cons] at lw3
                have lw4 := skipWs_length r1
                simp only
                rw [ihm d (skipWs r1) (by omega)]

/-- The fuel `parseJson` gives the reader is enough: with any larger fuel the
reader returns the same. -/
theorem parseValue_fuel_le (d : Nat) (i : List Nat) (f : Nat) (h : 2 * i.length + 2 ≤ f) :
    parseValue f d i = parseValue (2 * i.length + 2) d i := by
  induction f with
  | zero => omega
  | succ f ih =>
    by_cases hf : 2 * i.length + 2 ≤ f
    · rw [(parse_fuel f).1 d i hf, ih hf]
    · have : f + 1 = 2 * i.length + 2 := by omega
      rw [this]

/-! ## Lemmas: a rendered value is a sequence of bytes -/

theorem hexDigit_lt (k : Nat) (h : k < 16) : hexDigit k < 256 := by
  unfold hexDigit
  split_ifs <;> omega

theorem utf8Encode_lt (c : Char) : ∀ b ∈ utf8Encode c, b < 256 := by
  have hv := char_range c
  intro b hb
  unfold utf8Encode at hb
  simp only at hb
  split_ifs at hb <;>
    simp only [List.mem_cons, List.mem_singleton, List.not_mem_nil, or_false] at hb <;>
    omega

theorem encodeChar_lt (c : Char) : ∀ b ∈ encodeChar c, b < 256 := by
  intro b hb
  unfold encodeChar at hb
  simp only at hb
  have h1 := hexDigit_lt (c.toNat % 16) (by omega)
  split_ifs at hb with _ _ _ _ _ _ _ h8
  any_goals
    (simp only [List.mem_cons, List.mem_singleton, List.not_mem_nil, or_false] at hb; omega)
  · have h2 := hexDigit_lt (c.toNat / 16) (by omega)
    simp only [List.mem_cons, List.mem_singleton, List.not_mem_nil, or_false] at hb
    omega
  · exact utf8Encode_lt c b hb

theorem encodeString_lt (s : String) : ∀ b ∈ encodeString s, b < 256 := by
  have key : ∀ cs : List Char, ∀ b ∈ encodeChars cs, b < 256 := by
    intro cs
    induction cs with
    | nil => intro b hb; simp [encodeChars] at hb
    | cons c cs ih =>
      intro b hb
      simp only [encodeChars, List.mem_append] at hb
      rcases hb with hb | hb
      · exact encodeChar_lt c b hb
      · exact ih b hb
  intro b hb
  simp only [encodeString, List.mem_cons, List.mem_append, List.mem_singleton,
    List.not_mem_nil, or_false] at hb
  rcases hb with rfl | hb | rfl
  · omega
  · exact key _ b hb
  · omega

theorem formatInt_lt (i : Int) : ∀ b ∈ formatInt i, b < 256 := by
  have key : ∀ n : Nat, ∀ b ∈ formatNat n, b < 256 := by
    intro n b hb
    obtain ⟨d, ds, e, hds, hd⟩ := formatNat_spec n
    rw [e] at hb
    rcases List.mem_cons.mp hb with rfl | hb
    · rcases hd with ⟨rfl, _⟩ | hd <;> omega
    · have := hds b hb
      simp [isDigit] at this
      omega
  intro b hb
  cases i with
  | ofNat n => exact key n b hb
  | negSucc n =>
    simp only [formatInt, List.mem_cons] at hb
    rcases hb with rfl | hb
    · omega
    · exact key _ b hb

mutual
/-- Every element of a rendered value is a byte. -/
theorem render_lt : ∀ (v : JVal), v.WF → ∀ b ∈ render v, b < 256
  | .null, _, b, hb => by
    simp only [render, List.mem_cons, List.mem_singleton, List.not_mem_nil, or_false] at hb
    omega
  | .bool true, _, b, hb => by
    simp only [render, List.mem_cons, List.mem_singleton, List.not_mem_nil, or_false] at hb
    omega
  | .bool false, _, b, hb => by
    simp only [render, List.mem_cons, List.mem_singleton, List.not_mem_nil, or_false] at hb
    omega
  | .str s, _, b, hb => encodeString_lt s b hb
  | .num raw, hwf, b, hb => by
    obtain ⟨i, rfl⟩ := hwf
    exact formatInt_lt i b hb
  | .arr [], _, b, hb => by
    simp only [render, List.mem_cons, List.mem_singleton, List.not_mem_nil, or_false] at hb
    omega
  | .arr (v :: vs), hwf, b, hb => by
    simp only [JVal.WF, WFList] at hwf
    simp only [render, List.mem_cons, List.mem_append] at hb
    rcases hb with rfl | hb | hb
    · omega
    · exact render_lt v hwf.1 b hb
    · exact renderElems_lt vs hwf.2 b hb
  | .obj [], _, b, hb => by
    simp only [render, List.mem_cons, List.mem_singleton, List.not_mem_nil, or_false] at hb
    omega
  | .obj ((k, v) :: ms), hwf, b, hb => by
    simp only [JVal.WF, WFMembers] at hwf
    simp only [render, List.mem_cons, List.mem_append] at hb
    rcases hb with rfl | hb | rfl | hb | hb
    · omega
    · exact encodeString_lt k b hb
    · omega
    · exact render_lt v hwf.1 b hb
    · exact renderMembers_lt ms hwf.2 b hb
theorem renderElems_lt : ∀ (vs : List JVal), WFList vs → ∀ b ∈ renderElems vs, b < 256
  | [], _, b, hb => by
    simp only [renderElems, List.mem_singleton] at hb
    omega
  | v :: vs, hwf, b, hb => by
    simp only [WFList] at hwf
    simp only [renderElems, List.mem_cons, List.mem_append] at hb
    rcases hb with rfl | hb | hb
    · omega
    · exact render_lt v hwf.1 b hb
    · exact renderElems_lt vs hwf.2 b hb
theorem renderMembers_lt : ∀ (ms : List (String × JVal)), WFMembers ms →
    ∀ b ∈ renderMembers ms, b < 256
  | [], _, b, hb => by
    simp only [renderMembers, List.mem_singleton] at hb
    omega
  | (k, v) :: ms, hwf, b, hb => by
    simp only [WFMembers] at hwf
    simp only [renderMembers, List.mem_cons, List.mem_append] at hb
    rcases hb with rfl | hb | rfl | hb | hb
    · omega
    · exact encodeString_lt k b hb
    · omega
    · exact render_lt v hwf.1 b hb
    · exact renderMembers_lt ms hwf.2 b hb
end

/-! ## Lemmas: the JSON values of the program's types -/

theorem WFList_map {α : Type} (f : α → JVal) (xs : List α) (h : ∀ x, (f x).WF) :
    WFList (xs.map f) := by
  induction xs with
  | nil => simp [WFList]
  | cons x xs ih => exact ⟨h x, ih⟩

theorem heightList_map_le {α : Type} (f : α → JVal) (xs : List α) (n : Nat)
    (h : ∀ x, (f x).height ≤ n) : heightList (xs.map f) ≤ n := by
  induction xs with
  | nil => simp [heightList]
  | cons x xs ih =>
    simp only [List.map_cons, heightList]
    exact max_le (h x) ih

theorem jsonPtr_WF {α : Type} (f : α → JVal) (o : Option α) (h : ∀ x, (f x).WF) :
    (jsonPtr f o).WF := by
  cases o with
  | none => simp [jsonPtr, JVal.WF]
  | some x => exact h x

theorem jsonPtr_height_le {α : Type} (f : α → JVal) (o : Option α) (n : Nat)
    (h : ∀ x, (f x).height ≤ n) : (jsonPtr f o).height ≤ n := by
  cases o with
  | none => simp [jsonPtr, JVal.height]
  | some x => exact h x

theorem jsonSlice_WF {α : Type} (f : α → JVal) (o : Option (List α)) (h : ∀ x, (f x).WF) :
    (jsonSlice f o).WF := by
  cases o with
  | none => simp [jsonSlice, JVal.WF]
  | some xs =>
    simp only [jsonSlice, JVal.WF]
    exact WFList_map f xs h

theorem jsonSlice_height_le {α : Type} (f : α → JVal) (o : Option (List α)) (n : Nat)
    (h : ∀ x, (f x).height ≤ n) : (jsonSlice f o).height ≤ n + 1 := by
  cases o with
  | none => simp [jsonSlice, JVal.height]
  | some xs =>
    simp only [jsonSlice, JVal.height]
    have := heightList_map_le f xs n h
    omega

theorem jsonInt_WF (i : Int) : (jsonInt i).WF := ⟨i, rfl⟩

theorem jsonInt_height (i : Int) : (jsonInt i).height = 0 := rfl

theorem jsonBytes_WF (b : List Nat) : (jsonBytes b).WF := by
  simp [jsonBytes, JVal.WF]

theorem jsonBytes_height (b : List Nat) : (jsonBytes b).height = 0 := rfl

theorem str_WF (s : String) : (JVal.str s).WF := by
  simp [JVal.WF]

theorem KafkaMessage_toJson_WF (m : KafkaMessage) : m.toJson.WF := by
  simp [KafkaMessage.toJson, JVal.WF, WFMembers, jsonBytes]

theorem KafkaMessage_toJson_height (m : KafkaMessage) : m.toJson.height = 1 := by
  simp [KafkaMessage.toJson, JVal.height, heightMembers, jsonBytes]

/-- Height of an object with one more member. -/
theorem heightMembers_cons_le (k : String) (v : JVal) (ms : List (String × JVal)) (n : Nat)
    (h1 : v.height ≤ n) (h2 : heightMembers ms ≤ n) : heightMembers ((k, v) :: ms) ≤ n := by
  simp only [heightMembers]
  exact max_le h1 h2

theorem heightMembers_nil_le (n : Nat) : heightMembers [] ≤ n := by
  simp [heightMembers]

namespace genai

theorem Part_toJson_WF (p : Part) : p.toJson.WF := by
  cases p with
  | Text s => simp [Part.toJson, JVal.WF]
  | Blob mime data =>
    simp only [Part.toJson, JVal.WF, WFMembers, and_true, true_and]
    exact jsonPtr_WF _ _ jsonBytes_WF

theorem Part_toJson_height (p : Part) : p.toJson.height ≤ 1 := by
  cases p with
  | Text s => simp [Part.toJson, JVal.height]
  | Blob mime data =>
    have h := jsonPtr_height_le jsonBytes data 0 (fun b => by simp [jsonBytes_height])
    simp only [Part.toJson, JVal.height]
    have := heightMembers_cons_le "MIMEType" (.str mime) [("Data", jsonPtr jsonBytes data)] 0
      (by simp [JVal.height]) (heightMembers_cons_le _ _ _ 0 h (heightMembers_nil_le 0))
    omega

theorem Content_toJson_WF (c : Content) : c.toJson.WF := by
  simp only [Content.toJson, JVal.WF, WFMembers, and_true]
  exact jsonSlice_WF _ _ Part_toJson_WF

theorem Content_toJson_height (c : Content) : c.toJson.height ≤ 3 := by
  have h := jsonSlice_height_le Part.toJson c.Parts 1 Part_toJson_height
  simp only [Content.toJson, JVal.height]
  have := heightMembers_cons_le "Parts" (jsonSlice Part.toJson c.Parts) [("Role", .str c.Role)] 2
    h (heightMembers_cons_le _ _ _ 2 (by simp [JVal.height]) (heightMembers_nil_le 2))
  omega

theorem SafetyRating_toJson_WF (r : SafetyRating) : r.toJson.WF := by
  simp only [SafetyRating.toJson, JVal.WF, WFMembers, and_true]
  exact ⟨jsonInt_WF _, jsonInt_WF _⟩

theorem SafetyRating_toJson_height (r : SafetyRating) : r.toJson.height ≤ 1 := by
  simp only [SafetyRating.toJson, JVal.height]
  have := heightMembers_cons_le "Category" (jsonInt r.Category)
    [("Probability", jsonInt r.Probability), ("Blocked", .bool r.Blocked)] 0
    (by simp [jsonInt_height]) (heightMembers_cons_le _ _ _ 0 (by simp [jsonInt_height])
      (heightMembers_cons_le _ _ _ 0 (by simp [JVal.height]) (heightMembers_nil_le 0)))
  omega

theorem CitationSource_toJson_WF (c : CitationSource) : c.toJson.WF := by
  simp only [CitationSource.toJson, JVal.WF, WFMembers, and_true]
  exact ⟨jsonPtr_WF _ _ jsonInt_WF, jsonPtr_WF _ _ jsonInt_WF, jsonPtr_WF _ _ str_WF⟩

theorem CitationSource_toJson_height (c : CitationSource) : c.toJson.height ≤ 1 := by
  have h1 := jsonPtr_height_le jsonInt c.StartIndex 0 (fun i => by simp [jsonInt_height])
  have h2 := jsonPtr_height_le jsonInt c.EndIndex 0 (fun i => by simp [jsonInt_height])
  have h3 := jsonPtr_height_le JVal.str c.URI 0 (fun s => by simp [JVal.height])
  simp only [CitationSource.toJson, JVal.height]
  have := heightMembers_cons_le "StartIndex" (jsonPtr jsonInt c.StartIndex)
    [("EndIndex", jsonPtr jsonInt c.EndIndex), ("URI", jsonPtr JVal.str c.URI),
      ("License", .str c.License)] 0 h1
    (heightMembers_cons_le _ _ _ 0 h2 (heightMembers_cons_le _ _ _ 0 h3
      (heightMembers_cons_le _ _ _ 0 (by simp [JVal.height]) (heightMembers_nil_le 0))))
  omega

theorem CitationMetadata_toJson_WF (c : CitationMetadata) : c.toJson.WF := by
  simp only [CitationMetadata.toJson, JVal.WF, WFMembers, and_true]
  exact jsonSlice_WF _ _ (fun o => jsonPtr_WF _ o CitationSource_toJson_WF)

theorem CitationMetadata_toJson_height (c : CitationMetadata) : c.toJson.height ≤ 3 := by
  have h := jsonSlice_height_le (jsonPtr CitationSource.toJson) c.CitationSources 1
    (fun o => jsonPtr_height_le _ o 1 CitationSource_toJson_height)
  simp only [CitationMetadata.toJson, JVal.height]
  have := heightMembers_cons_le "CitationSources"
    (jsonSlice (jsonPtr CitationSource.toJson) c.CitationSources) [] 2 h (heightMembers_nil_le 2)
  omega

theorem safetyRatings_WF (o : Option (List (Option SafetyRating))) :
    (jsonSlice (jsonPtr SafetyRating.toJson) o).WF :=
  jsonSlice_WF _ _ (fun x => jsonPtr_WF _ x SafetyRating_toJson_WF)

theorem safetyRatings_height (o : Option (List (Option SafetyRating))) :
    (jsonSlice (jsonPtr SafetyRating.toJson) o).height ≤ 2 :=
  jsonSlice_height_le _ _ 1 (fun x => jsonPtr_height_le _ x 1 SafetyRating_toJson_height)

theorem Candidate_toJson_WF (c : Candidate) : c.toJson.WF := by
  simp only [Candidate.toJson, JVal.WF, WFMembers, and_true]
  exact ⟨jsonInt_WF _, jsonPtr_WF _ _ Content_toJson_WF, jsonInt_WF _, safetyRatings_WF _,
    jsonPtr_WF _ _ CitationMetadata_toJson_WF, jsonInt_WF _⟩

theorem Candidate_toJson_height (c : Candidate) : c.toJson.height ≤ 4 := by
  have h1 := jsonPtr_height_le Content.toJson c.Content 3 Content_toJson_height
  have h2 := safetyRatings_height c.SafetyRatings
  have h3 := jsonPtr_height_le CitationMetadata.toJson c.CitationMetadata 3
    CitationMetadata_toJson_height
  simp only [Candidate.toJson, JVal.height]
  have := heightMembers_cons_le "Index" (jsonInt c.Index)
    [("Content", jsonPtr Content.toJson c.Content), ("FinishReason", jsonInt c.FinishReason),
      ("SafetyRatings", jsonSlice (jsonPtr SafetyRating.toJson) c.SafetyRatings),
      ("CitationMetadata", jsonPtr CitationMetadata.toJson c.CitationMetadata),
      ("TokenCount", jsonInt c.TokenCount)] 3 (by simp [jsonInt_height])
    (heightMembers_cons_le _ _ _ 3 h1 (heightMembers_cons_le _ _ _ 3 (by simp [jsonInt_height])
      (heightMembers_cons_le _ _ _ 3 (by omega) (heightMembers_cons_le _ _ _ 3 h3
        (heightMembers_cons_le _ _ _ 3 (by simp [jsonInt_height]) (heightMembers_nil_le 3))))))
  omega

theorem PromptFeedback_toJson_WF (f : PromptFeedback) : f.toJson.WF := by
  simp only [PromptFeedback.toJson, JVal.WF, WFMembers, and_true]
  exact ⟨jsonInt_WF _, safetyRatings_WF _⟩

theorem PromptFeedback_toJson_height (f : PromptFeedback) : f.toJson.height ≤ 3 := by
  have h2 := safetyRatings_height f.SafetyRatings
  simp only [PromptFeedback.toJson, JVal.height]
  have := heightMembers_cons_le "BlockReason" (jsonInt f.BlockReason)
    [("SafetyRatings", jsonSlice (jsonPtr SafetyRating.toJson) f.SafetyRatings)] 2
    (by simp [jsonInt_height]) (heightMembers_cons_le _ _ _ 2 h2 (heightMembers_nil_le 2))
  omega

theorem UsageMetadata_toJson_WF (u : UsageMetadata) : u.toJson.WF := by
  simp only [UsageMetadata.toJson, JVal.WF, WFMembers, and_true]
  exact ⟨jsonInt_WF _, jsonInt_WF _, jsonInt_WF _⟩

theorem UsageMetadata_toJson_height (u : UsageMetadata) : u.toJson.height ≤ 1 := by
  simp only [UsageMetadata.toJson, JVal.height]
  have := heightMembers_cons_le "PromptTokenCount" (jsonInt u.PromptTokenCount)
    [("CandidatesTokenCount", jsonInt u.CandidatesTokenCount),
      ("TotalTokenCount", jsonInt u.TotalTokenCount)] 0
    (by simp [jsonInt_height]) (heightMembers_cons_le _ _ _ 0 (by simp [jsonInt_height])
      (heightMembers_cons_le _ _ _ 0 (by simp [jsonInt_height]) (heightMembers_nil_le 0)))
  omega

/-- The JSON value of a generation result has decimal integers only. -/
theorem GenerateContentResponse_toJson_WF (r : GenerateContentResponse) : r.toJson.WF := by
  simp only [GenerateContentResponse.toJson, JVal.WF, WFMembers, and_true]
  exact ⟨jsonSlice_WF _ _ (fun o => jsonPtr_WF _ o Candidate_toJson_WF),
    jsonPtr_WF _ _ PromptFeedback_toJson_WF, jsonPtr_WF _ _ UsageMetadata_toJson_WF⟩

/-- The JSON value of a generation result is at most six levels deep. -/
theorem GenerateContentResponse_toJson_height (r : GenerateContentResponse) :
    r.toJson.height ≤ 6 := by
  have h1 := jsonSlice_height_le (jsonPtr Candidate.toJson) r.Candidates 4
    (fun o => jsonPtr_height_le _ o 4 Candidate_toJson_height)
  have h2 := jsonPtr_height_le PromptFeedback.toJson r.PromptFeedback 3
    PromptFeedback_toJson_height
  have h3 := jsonPtr_height_le UsageMetadata.toJson r.UsageMetadata 1
    UsageMetadata_toJson_height
  simp only [GenerateContentResponse.toJson, JVal.height]
  have := heightMembers_cons_le "Candidates" (jsonSlice (jsonPtr Candidate.toJson) r.Candidates)
    [("PromptFeedback", jsonPtr PromptFeedback.toJson r.PromptFeedback),
      ("UsageMetadata", jsonPtr UsageMetadata.toJson r.UsageMetadata)] 5 h1
    (heightMembers_cons_le _ _ _ 5 (by omega)
      (heightMembers_cons_le _ _ _ 5 (by omega) (heightMembers_nil_le 5)))
  omega

end genai

/-! ## Lemmas: the round trip through the queue -/

/-- Reading the array of the parts of a content whose parts are texts. -/
theorem decodeStringElems_parts (ps : List genai.Part)
    (h : ps.all (fun p => (genai.Part.text? p).isSome) = true) :
    decodeStringElems [] (ps.map genai.Part.toJson) = some (ps.filterMap genai.Part.text?) := by
  induction ps with
  | nil => rfl
  | cons p ps ih =>
    simp only [List.all_cons, Bool.and_eq_true] at h
    cases p with
    | Text s =>
      simp [decodeStringElems, genai.Part.toJson, decodeString, ih h.2, genai.Part.text?]
    | Blob mime data => simp [genai.Part.text?] at h

theorem decodeContent_toJson (ct : Option genai.Content)
    (h : (genai.contentParts ct).all (fun p => (genai.Part.text? p).isSome) = true) :
    decodeContent { Parts := [] } (jsonPtr genai.Content.toJson ct)
      = some (Content.mk ((genai.contentParts ct).filterMap genai.Part.text?)) := by
  cases ct with
  | none => rfl
  | some c =>
    have k1 : keyMatches "Parts" "Parts" = true := by decide
    have k2 : keyMatches "Role" "Parts" = false := by decide
    cases hp : c.Parts with
    | none =>
      simp [jsonPtr, genai.Content.toJson, decodeContent, decodeContentMembers, k1, k2, hp,
        jsonSlice, decodeStringSlice, genai.contentParts]
    | some ps =>
      simp only [genai.contentParts, hp, Option.getD_some] at h
      simp [jsonPtr, genai.Content.toJson, decodeContent, decodeContentMembers, k1, k2, hp,
        jsonSlice, decodeStringSlice, genai.contentParts, decodeStringElems_parts ps h]

theorem decodeCandidate_toJson (c : Option genai.Candidate)
    (h : (genai.candidateParts c).all (fun p => (genai.Part.text? p).isSome) = true) :
    decodeCandidate { Content := { Parts := [] } } (jsonPtr genai.Candidate.toJson c)
      = some (ResponseCandidate.mk
          (Content.mk ((genai.candidateParts c).filterMap genai.Part.text?))) := by
  cases c with
  | none => rfl
  | some c =>
    have k1 : keyMatches "Index" "Content" = false := by decide
    have k2 : keyMatches "Content" "Content" = true := by decide
    have k3 : keyMatches "FinishReason" "Content" = false := by decide
    have k4 : keyMatches "SafetyRatings" "Content" = false := by decide
    have k5 : keyMatches "CitationMetadata" "Content" = false := by decide
    have k6 : keyMatches "TokenCount" "Content" = false := by decide
    simp only [genai.candidateParts] at h ⊢
    have hc := decodeContent_toJson c.Content h
    show decodeCandidate _ (genai.Candidate.toJson c) = _
    simp only [genai.Candidate.toJson, decodeCandidate, decodeCandidateMembers, k1, k2,
      k3, k4, k5, k6, if_true, if_false, Bool.false_eq_true, hc]

theorem decodeCandidateElems_toJson (cs : List (Option genai.Candidate))
    (h : (cs.map genai.candidateParts).all
      (fun ps => ps.all fun p => (genai.Part.text? p).isSome) = true) :
    decodeCandidateElems [] (cs.map (jsonPtr genai.Candidate.toJson))
      = some (cs.map fun c => ResponseCandidate.mk
          (Content.mk ((genai.candidateParts c).filterMap genai.Part.text?))) := by
  induction cs with
  | nil => rfl
  | cons c cs ih =>
    simp only [List.map_cons, List.all_cons, Bool.and_eq_true] at h
    simp only [List.map_cons, decodeCandidateElems, decodeCandidate_toJson c h.1, ih h.2]

theorem decodeResponse_toJson (r : genai.GenerateContentResponse) (h : r.allText = true) :
    decodeResponse { Candidates := [] } r.toJson = some (viewOf r) := by
  have k1 : keyMatches "Candidates" "Candidates" = true := by decide
  have k2 : keyMatches "PromptFeedback" "Candidates" = false := by decide
  have k3 : keyMatches "UsageMetadata" "Candidates" = false := by decide
  unfold genai.GenerateContentResponse.allText genai.GenerateContentResponse.parts at h
  cases hc : r.Candidates with
  | none =>
    simp [genai.GenerateContentResponse.toJson, decodeResponse, decodeResponseMembers, k1, k2,
      k3, hc, jsonSlice, decodeCandidates, viewOf, genai.GenerateContentResponse.texts,
      genai.GenerateContentResponse.parts]
  | some cs =>
    simp only [hc, Option.getD_some] at h
    simp [genai.GenerateContentResponse.toJson, decodeResponse, decodeResponseMembers, k1, k2,
      k3, hc, jsonSlice, decodeCandidates, viewOf, genai.GenerateContentResponse.texts,
      genai.GenerateContentResponse.parts, decodeCandidateElems_toJson cs h]

/-- Reading back a marshalled generation result whose parts are texts. -/
theorem unmarshalResponse_marshalResponse (r : genai.GenerateContentResponse)
    (h : r.allText = true) : unmarshalResponse (marshalResponse r) = some (viewOf r) := by
  have hp := parseJson_render r.toJson (genai.GenerateContentResponse_toJson_WF r)
    (by have := genai.GenerateContentResponse_toJson_height r; unfold maxNestingDepth; omega)
  rw [unmarshalResponse, marshalResponse, hp]
  exact decodeResponse_toJson r h

/-- Reading back a marshalled envelope whose payload is a byte sequence. -/
theorem unmarshalKafkaMessage_marshalKafkaMessage (m : KafkaMessage)
    (h : ∀ b ∈ m.Content, b < 256) :
    unmarshalKafkaMessage (marshalKafkaMessage m) = some m := by
  have hp := parseJson_render m.toJson (KafkaMessage_toJson_WF m)
    (by rw [KafkaMessage_toJson_height]; unfold maxNestingDepth; omega)
  have k1 : keyMatches "channel_id" "channel_id" = true := by decide
  have k2 : keyMatches "content" "channel_id" = false := by decide
  have k3 : keyMatches "content" "content" = true := by decide
  have e : List.map (Char.toNat ∘ Char.ofNat) (b64Encode m.Content) = b64Encode m.Content := by
    rw [← List.map_map]
    exact b64_chars _
  rw [unmarshalKafkaMessage, marshalKafkaMessage, hp]
  simp [KafkaMessage.toJson, decodeKafkaMessage,
    decodeKafkaMessageMembers, k1, k2, k3, decodeString, jsonBytes, decodeBytes, e,
    b64Decode_b64Encode m.Content h]

theorem marshalResponse_lt (r : genai.GenerateContentResponse) :
    ∀ b ∈ marshalResponse r, b < 256 :=
  render_lt r.toJson (genai.GenerateContentResponse_toJson_WF r)

/-- The round trip: what the producer writes for a channel id and a result
whose parts are texts decodes, in the consumer, to that channel id and to the
texts of the result. -/
theorem consumerDecode_producer (d : String) (r : genai.GenerateContentResponse)
    (h : r.allText = true) :
    consumerDecode (marshalKafkaMessage { ChannelID := d, Content := marshalResponse r })
      = some ({ ChannelID := d, Content := marshalResponse r }, viewOf r) := by
  simp [consumerDecode,
    unmarshalKafkaMessage_marshalKafkaMessage ⟨d, marshalResponse r⟩ (marshalResponse_lt r),
    unmarshalResponse_marshalResponse r h]

/-! ## Lemmas: the handler -/

theorem hasPrefixStr_trigger_append (r : String) : hasPrefixStr (trigger ++ r) trigger = true := by
  simp [hasPrefixStr, trigger, String.data_append]

theorem cutText_trigger_append (r : String) : cutText (trigger ++ r) = r := by
  simp [cutText, trigger, String.data_append]

/-- The calls of the handler after the backend call of a command. -/
theorem messageHandler_command (env : Env) (botID : String) (m : MessageCreate)
    (hauthor : m.AuthorID ≠ botID) (htrig : hasPrefixStr m.Content trigger = true) :
    ∃ rest, messageHandler env botID m
        = Call.generateContent "gemini-1.5-flash" (cutText m.Content) :: rest
      ∧ backendCalls rest = [] := by
  unfold messageHandler
  simp only [hauthor, htrig, if_false, if_true]
  refine ⟨_, rfl, ?_⟩
  repeat' split
  all_goals simp [backendCalls]

/-! ## The claims about the handler -/

/-- C2: an event whose content does not begin with the trigger `"/B "` makes
the handler do nothing, whoever its author is: no backend call, no queue
write, no reply, no call at all. -/
theorem c2_no_trigger_no_call (env : Env) (botID : String) (m : MessageCreate)
    (h : hasPrefixStr m.Content trigger = false) :
    messageHandler env botID m = [] := by
  unfold messageHandler
  simp [h]

/-- C3: an event written by the bot's own account makes the handler do
nothing, whatever its content, the trigger included: the author is compared
before the content is looked at. -/
theorem c3_own_message_no_call (env : Env) (botID channelID content : String) :
    messageHandler env botID { AuthorID := botID, ChannelID := channelID, Content := content }
      = []
    ∧ messageHandler env botID
        { AuthorID := botID, ChannelID := channelID, Content := trigger ++ content } = [] := by
  simp [messageHandler]

/-- C4: for content `"/B " ++ r` from another author the first call of the
handler is the backend call, its prompt is exactly `r` (empty or not, nothing
trimmed), and it is the only backend call. -/
theorem c4_prompt_is_remainder (env : Env) (botID authorID channelID r : String)
    (hauthor : authorID ≠ botID) :
    (∃ rest, messageHandler env botID
        { AuthorID := authorID, ChannelID := channelID, Content := "/B " ++ r }
          = Call.generateContent "gemini-1.5-flash" r :: rest)
    ∧ backendCalls (messageHandler env botID
        { AuthorID := authorID, ChannelID := channelID, Content := "/B " ++ r }) = [r] := by
  obtain ⟨rest, e, hb⟩ := messageHandler_command env botID
    { AuthorID := authorID, ChannelID := channelID, Content := trigger ++ r } hauthor
    (hasPrefixStr_trigger_append r)
  rw [cutText_trigger_append] at e
  have e2 : messageHandler env botID
      { AuthorID := authorID, ChannelID := channelID, Content := "/B " ++ r }
        = Call.generateContent "gemini-1.5-flash" r :: rest := e
  refine ⟨⟨rest, e2⟩, ?_⟩
  rw [e2]
  simp [backendCalls, hb]

/-- C5: when the backend call of a command returns an error, the handler
writes nothing to the queue, calls `json.Marshal` not once, and sends exactly
one message, to the channel of the event, with the failure notice. -/
theorem c5_backend_error (env : Env) (botID : String) (m : MessageCreate) (e : String)
    (hauthor : m.AuthorID ≠ botID) (htrig : hasPrefixStr m.Content trigger = true)
    (hbackend : env.generateContent (cutText m.Content) = .error e) :
    queueWrites (messageHandler env botID m) = []
    ∧ marshalCalls (messageHandler env botID m) = 0
    ∧ sends (messageHandler env botID m)
        = [(m.ChannelID, "Error generating content from Gemini.")] := by
  unfold messageHandler
  simp [hauthor, htrig, hbackend, queueWrites, marshalCalls, sends]

/-- C9: for a command whose backend call succeeds, the handler writes to the
queue exactly once when both encodings succeed, and the message written has
no key and holds the encoded envelope made of the event's channel id and the
encoded result; it writes nothing when the encoding of the result fails, and
nothing when the encoding of the envelope fails. -/
theorem c9_one_write_per_command (env : Env) (botID : String) (m : MessageCreate)
    (resp : genai.GenerateContentResponse)
    (hauthor : m.AuthorID ≠ botID) (htrig : hasPrefixStr m.Content trigger = true)
    (hbackend : env.generateContent (cutText m.Content) = .ok resp) :
    (∀ respJSON kafkaMsgJSON, env.marshalResponse resp = .ok respJSON →
      env.marshalKafkaMessage { ChannelID := m.ChannelID, Content := respJSON }
        = .ok kafkaMsgJSON →
      queueWrites (messageHandler env botID m) = [{ Key := none, Value := kafkaMsgJSON }])
    ∧ (∀ err, env.marshalResponse resp = .error err →
      queueWrites (messageHandler env botID m) = [])
    ∧ (∀ respJSON err, env.marshalResponse resp = .ok respJSON →
      env.marshalKafkaMessage { ChannelID := m.ChannelID, Content := respJSON } = .error err →
      queueWrites (messageHandler env botID m) = []) := by
  refine ⟨?_, ?_, ?_⟩
  · intro respJSON kafkaMsgJSON h1 h2
    unfold messageHandler
    simp only [hauthor, htrig, hbackend, h1, h2, if_false, if_true]
    split <;> simp [queueWrites]
  · intro err h1
    unfold messageHandler
    simp [hauthor, htrig, hbackend, h1, queueWrites]
  · intro respJSON err h1 h2
    unfold messageHandler
    simp [hauthor, htrig, hbackend, h1, h2, queueWrites]

/-! ## Lemmas: the consumer -/

theorem sends_append (xs ys : List Call) : sends (xs ++ ys) = sends xs ++ sends ys := by
  induction xs with
  | nil => rfl
  | cons c cs ih => cases c <;> simp [sends, ih]

theorem consumeMessage_of_decode (value : List Nat) (kafkaMsg : KafkaMessage)
    (response : Response) (h : consumerDecode value = some (kafkaMsg, response)) :
    consumeMessage value = sendParts kafkaMsg.ChannelID response := by
  unfold consumerDecode at h
  unfold consumeMessage
  cases h1 : unmarshalKafkaMessage value with
  | none => simp [h1] at h
  | some km =>
    simp only [h1] at h ⊢
    cases h2 : unmarshalResponse km.Content with
    | none => simp [h2] at h
    | some resp =>
      simp only [h2, Option.some.injEq, Prod.mk.injEq] at h ⊢
      rw [h.1, h.2]

theorem sendParts_eq (channelID : String) (response : Response) :
    sendParts channelID response
      = (response.Candidates.flatMap fun c => c.Content.Parts).map
          (Call.channelMessageSend channelID) := by
  unfold sendParts
  induction response.Candidates with
  | nil => rfl
  | cons c cs ih => simp [List.flatMap_cons, ih]

theorem sends_map_send (channelID : String) (ps : List String) :
    sends (ps.map (Call.channelMessageSend channelID)) = ps.map fun p => (channelID, p) := by
  induction ps with
  | nil => rfl
  | cons p ps ih => simp [sends, ih]

theorem consumeMessage_of_no_decode (value : List Nat) (h : consumerDecode value = none) :
    sends (consumeMessage value) = [] := by
  unfold consumerDecode at h
  unfold consumeMessage
  cases h1 : unmarshalKafkaMessage value with
  | none => rfl
  | some km =>
    simp only [h1] at h ⊢
    cases h2 : unmarshalResponse km.Content with
    | none => rfl
    | some resp => simp [h2] at h

theorem consumerLoop_reads (msgs : List Message) (e : String)
    (later : List (Except String Message)) :
    consumerLoop (msgs.map Except.ok ++ Except.error e :: later)
      = (msgs.flatMap fun m => consumeMessage m.Value) ++ [Call.logFatal] := by
  induction msgs with
  | nil => rfl
  | cons m ms ih => simp [consumerLoop, List.flatMap_cons, ih]

theorem sends_flatMap (msgs : List Message) :
    sends (msgs.flatMap fun m => consumeMessage m.Value)
      = msgs.flatMap fun m => sends (consumeMessage m.Value) := by
  induction msgs with
  | nil => rfl
  | cons m ms ih => simp [List.flatMap_cons, sends_append, ih]

theorem flatMap_parts_nil (cs : List ResponseCandidate)
    (h : ∀ c ∈ cs, c.Content.Parts = []) : (cs.flatMap fun c => c.Content.Parts) = [] := by
  induction cs with
  | nil => rfl
  | cons c cs ih =>
    rw [List.flatMap_cons, h c (by simp), List.nil_append]
    exact ih (fun x hx => h x (by simp [hx]))

/-! ## The claims about the consumer -/

/-- C6: when the message decodes to an envelope and a generation result, the
consumer step makes exactly one call per part, each a send to the envelope's
channel, in candidate order and in part order within a candidate; their number
is the sum of the part counts; two candidates of two parts give the four sends
in that order; no candidate, or candidates without parts, give no call. -/
theorem c6_sends_follow_parts (value : List Nat) (kafkaMsg : KafkaMessage) (response : Response)
    (h : consumerDecode value = some (kafkaMsg, response)) :
    consumeMessage value
        = (response.Candidates.flatMap fun c => c.Content.Parts).map
            (Call.channelMessageSend kafkaMsg.ChannelID)
    ∧ (consumeMessage value).length
        = (response.Candidates.map fun c => c.Content.Parts.length).sum
    ∧ (∀ a b c d : String,
        response.Candidates = [{ Content := { Parts := [a, b] } }, { Content := { Parts := [c, d] } }] →
        consumeMessage value
          = [.channelMessageSend kafkaMsg.ChannelID a, .channelMessageSend kafkaMsg.ChannelID b,
             .channelMessageSend kafkaMsg.ChannelID c, .channelMessageSend kafkaMsg.ChannelID d])
    ∧ (response.Candidates = [] → consumeMessage value = [])
    ∧ ((∀ c ∈ response.Candidates, c.Content.Parts = []) → consumeMessage value = []) := by
  have e := consumeMessage_of_decode value kafkaMsg response h
  rw [e, sendParts_eq]
  refine ⟨rfl, ?_, ?_, ?_, ?_⟩
  · simp [List.length_flatMap, Function.comp_def]
  · intro a b c d hc
    simp [hc, List.flatMap_cons]
  · intro hc
    simp [hc]
  · intro hc
    simp [flatMap_parts_nil response.Candidates hc]

/-- C8: for messages read successfully and then a failed read, the loop makes
the calls of each message in the order of the reads and then ends the process,
whatever the queue would have returned later; so its sends are those of the
messages, in that order, and a message that does not decode has no send. -/
theorem c8_loop_until_failed_read (msgs : List Message) (e : String)
    (later : List (Except String Message)) :
    consumerLoop (msgs.map Except.ok ++ Except.error e :: later)
        = (msgs.flatMap fun m => consumeMessage m.Value) ++ [Call.logFatal]
    ∧ sends (consumerLoop (msgs.map Except.ok ++ Except.error e :: later))
        = (msgs.flatMap fun m => sends (consumeMessage m.Value))
    ∧ (∀ m ∈ msgs, consumerDecode m.Value = none → sends (consumeMessage m.Value) = []) := by
  refine ⟨consumerLoop_reads msgs e later, ?_, ?_⟩
  · rw [consumerLoop_reads, sends_append, sends_flatMap]
    simp [sends]
  · intro m _ hm
    exact consumeMessage_of_no_decode m.Value hm

/-! ## Lemmas: the shape of the payload -/

theorem map_Text_filterMap (ps : List genai.Part)
    (h : ps.all (fun p => (genai.Part.text? p).isSome) = true) :
    (ps.filterMap genai.Part.text?).map genai.Part.Text = ps := by
  induction ps with
  | nil => rfl
  | cons p ps ih =>
    simp only [List.all_cons, Bool.and_eq_true] at h
    cases p with
    | Text s => simp [genai.Part.text?, ih h.2]
    | Blob mime data => simp [genai.Part.text?] at h

theorem viewOf_parts (r : genai.GenerateContentResponse) (h : r.allText = true) :
    (viewOf r).Candidates.map (fun c => c.Content.Parts.map genai.Part.Text) = r.parts := by
  unfold genai.GenerateContentResponse.allText at h
  simp only [viewOf, genai.GenerateContentResponse.texts, List.map_map]
  have key : ∀ pss : List (List genai.Part),
      pss.all (fun ps => ps.all fun p => (genai.Part.text? p).isSome) = true →
      pss.map ((fun c : ResponseCandidate => c.Content.Parts.map genai.Part.Text) ∘
        ((fun ps => ResponseCandidate.mk (Content.mk ps)) ∘
          fun ps => ps.filterMap genai.Part.text?)) = pss := by
    intro pss
    induction pss with
    | nil => intro _; rfl
    | cons ps pss ih =>
      intro hh
      simp only [List.all_cons, Bool.and_eq_true] at hh
      simp only [List.map_cons, Function.comp_apply, map_Text_filterMap ps hh.1, ih hh.2]
  exact key r.parts h

theorem isStringArray_parts (ps : Option (List genai.Part))
    (h : (ps.getD []).all (fun p => (genai.Part.text? p).isSome) = true) :
    isStringArray (jsonSlice genai.Part.toJson ps) = true := by
  cases ps with
  | none => rfl
  | some l =>
    simp only [Option.getD_some] at h
    simp only [jsonSlice, isStringArray]
    induction l with
    | nil => rfl
    | cons p l ih =>
      simp only [List.all_cons, Bool.and_eq_true] at h
      cases p with
      | Text s =>
        simp only [List.map_cons, List.all_cons, genai.Part.toJson, Bool.true_and]
        exact ih h.2
      | Blob mime data => simp [genai.Part.text?] at h

theorem isContentShape_toJson (ct : Option genai.Content)
    (h : (genai.contentParts ct).all (fun p => (genai.Part.text? p).isSome) = true) :
    isContentShape (jsonPtr genai.Content.toJson ct) = true := by
  cases ct with
  | none => rfl
  | some c =>
    have hs := isStringArray_parts c.Parts h
    show isContentShape (genai.Content.toJson c) = true
    simp [genai.Content.toJson, isContentShape, hs]

theorem isCandidateShape_toJson (c : Option genai.Candidate)
    (h : (genai.candidateParts c).all (fun p => (genai.Part.text? p).isSome) = true) :
    isCandidateShape (jsonPtr genai.Candidate.toJson c) = true := by
  cases c with
  | none => rfl
  | some c =>
    have hs := isContentShape_toJson c.Content h
    show isCandidateShape (genai.Candidate.toJson c) = true
    simp [genai.Candidate.toJson, isCandidateShape, hs]

theorem candidates_shape (cs : List (Option genai.Candidate))
    (h : (cs.map genai.candidateParts).all
      (fun ps => ps.all fun p => (genai.Part.text? p).isSome) = true) :
    (cs.map (jsonPtr genai.Candidate.toJson)).all isCandidateShape = true := by
  induction cs with
  | nil => rfl
  | cons c cs ih =>
    simp only [List.map_cons, List.all_cons, Bool.and_eq_true] at h ⊢
    exact ⟨isCandidateShape_toJson c h.1, ih h.2⟩

theorem isResponseShape_toJson (r : genai.GenerateContentResponse) (h : r.allText = true) :
    isResponseShape r.toJson = true := by
  unfold genai.GenerateContentResponse.allText genai.GenerateContentResponse.parts at h
  cases hc : r.Candidates with
  | none => simp [genai.GenerateContentResponse.toJson, isResponseShape, hc, jsonSlice]
  | some cs =>
    simp only [hc, Option.getD_some] at h
    have key := candidates_shape cs h
    simp [genai.GenerateContentResponse.toJson, isResponseShape, hc, jsonSlice, key]

/-- What the handler writes to the queue for a command when `json.Marshal` is
the model of this file and the backend call succeeds. -/
theorem messageHandler_jsonEnv (backend : String → Except String genai.GenerateContentResponse)
    (writer : Message → Except String Unit) (botID : String) (m : MessageCreate)
    (resp : genai.GenerateContentResponse)
    (hauthor : m.AuthorID ≠ botID) (htrig : hasPrefixStr m.Content trigger = true)
    (hbackend : backend (cutText m.Content) = .ok resp) :
    queueWrites (messageHandler (jsonEnv backend writer) botID m)
      = [{ Key := none
           Value := marshalKafkaMessage
             { ChannelID := m.ChannelID, Content := marshalResponse resp } }] := by
  unfold messageHandler
  simp only [hauthor, htrig, jsonEnv, hbackend, if_false, if_true]
  split <;> simp [queueWrites]

/-! ## The claims about the queue format -/

/-- C1: for every channel id and every generation result whose parts are
texts, the value the producer makes of them decodes in the consumer, envelope
first and payload second, to the same channel id, to as many candidates, and
per candidate to the same texts in the same order. -/
theorem c1_round_trip (d : String) (r : genai.GenerateContentResponse)
    (h : r.allText = true) :
    ∃ kafkaMsg response,
      consumerDecode (marshalKafkaMessage { ChannelID := d, Content := marshalResponse r })
        = some (kafkaMsg, response)
      ∧ kafkaMsg.ChannelID = d
      ∧ response.Candidates.length = (r.Candidates.getD []).length
      ∧ response.Candidates.map (fun c => c.Content.Parts.map genai.Part.Text) = r.parts := by
  refine ⟨_, _, consumerDecode_producer d r h, rfl, ?_, viewOf_parts r h⟩
  simp [viewOf, genai.GenerateContentResponse.texts, genai.GenerateContentResponse.parts]

/-- C10: the value the producer writes is a JSON object with exactly two
members, the channel id as a string (the destination, JSON name `channel_id`)
and the payload as a base64 string (JSON name `content`); the payload is the
JSON text of the result, an object whose member `Candidates` is an array of
objects whose member `Content` is an object whose member `Parts` is an array
of strings (`null` standing for a nil slice or pointer), and it decodes into
the consumer's `Response`. -/
theorem c10_wire_format (d : String) (r : genai.GenerateContentResponse)
    (h : r.allText = true) :
    parseJson (marshalKafkaMessage { ChannelID := d, Content := marshalResponse r })
        = some (.obj [("channel_id", .str d),
            ("content", .str (String.mk ((b64Encode (marshalResponse r)).map Char.ofNat)))])
    ∧ b64Decode (b64Encode (marshalResponse r)) = some (marshalResponse r)
    ∧ parseJson (marshalResponse r) = some r.toJson
    ∧ isResponseShape r.toJson = true
    ∧ unmarshalResponse (marshalResponse r) = some (viewOf r) := by
  refine ⟨?_, b64Decode_b64Encode _ (marshalResponse_lt r), ?_, isResponseShape_toJson r h,
    unmarshalResponse_marshalResponse r h⟩
  · exact parseJson_render _ (KafkaMessage_toJson_WF _)
      (by rw [KafkaMessage_toJson_height]; unfold maxNestingDepth; omega)
  · exact parseJson_render _ (genai.GenerateContentResponse_toJson_WF r)
      (by have := genai.GenerateContentResponse_toJson_height r; unfold maxNestingDepth; omega)

/-- C7: for the event with content `"/B hello"`, author `"U1"` and channel
`"C1"`, a bot id other than `"U1"`, a backend that answers `hello` with one
candidate made of the text `"Hi there!"`, and a queue that accepts the write,
the handler writes one message, whose envelope names channel `"C1"`, and
sends nothing; the consumer step on that message makes one call, the send of
`"Hi there!"` to `"C1"`. -/
theorem c7_end_to_end (botID : String)
    (backend : String → Except String genai.GenerateContentResponse)
    (writer : Message → Except String Unit) (resp : genai.GenerateContentResponse)
    (hbot : botID ≠ "U1") (hbackend : backend "hello" = .ok resp)
    (hparts : resp.parts = [[.Text "Hi there!"]]) (hwrite : ∀ msg, writer msg = .ok ()) :
    ∃ msg kafkaMsg,
      queueWrites (messageHandler (jsonEnv backend writer) botID
          { AuthorID := "U1", ChannelID := "C1", Content := "/B hello" }) = [msg]
      ∧ unmarshalKafkaMessage msg.Value = some kafkaMsg
      ∧ kafkaMsg.ChannelID = "C1"
      ∧ sends (messageHandler (jsonEnv backend writer) botID
          { AuthorID := "U1", ChannelID := "C1", Content := "/B hello" }) = []
      ∧ consumeMessage msg.Value = [.channelMessageSend "C1" "Hi there!"] := by
  have hp : hasPrefixStr "/B hello" trigger = true := by decide
  have hc : cutText "/B hello" = "hello" := by decide
  have hall : resp.allText = true := by
    simp [genai.GenerateContentResponse.allText, hparts, genai.Part.text?]
  have hw := messageHandler_jsonEnv backend writer botID
    { AuthorID := "U1", ChannelID := "C1", Content := "/B hello" } resp (Ne.symm hbot) hp
    (by rw [hc]; exact hbackend)
  have hd := consumerDecode_producer "C1" resp hall
  refine ⟨_, { ChannelID := "C1", Content := marshalResponse resp }, hw,
    unmarshalKafkaMessage_marshalKafkaMessage _ (marshalResponse_lt resp), rfl, ?_, ?_⟩
  · unfold messageHandler
    simp [Ne.symm hbot, hp, hc, jsonEnv, hbackend, hwrite, sends]
  · rw [consumeMessage_of_decode _ _ _ hd]
    simp [sendParts, viewOf, genai.GenerateContentResponse.texts, hparts, genai.Part.text?]

/-! ## The claims at concrete inputs -/

/-- C1 at channel `"C1"` and the result made of the one text `"Hi there!"`. -/
theorem c1_round_trip_witness :
    (oneTextResponse "Hi there!").allText = true
    ∧ ∃ kafkaMsg response,
      consumerDecode (marshalKafkaMessage
          { ChannelID := "C1", Content := marshalResponse (oneTextResponse "Hi there!") })
        = some (kafkaMsg, response)
      ∧ kafkaMsg.ChannelID = "C1"
      ∧ response.Candidates.length = ((oneTextResponse "Hi there!").Candidates.getD []).length
      ∧ response.Candidates.map (fun c => c.Content.Parts.map genai.Part.Text)
          = (oneTextResponse "Hi there!").parts :=
  ⟨by decide, c1_round_trip "C1" (oneTextResponse "Hi there!") (by decide)⟩

/-- C2 at the empty text, `"/B"`, `"/b x"` and `" /B x"`. -/
theorem c2_no_trigger_no_call_witness :
    messageHandler (answeringEnv (oneTextResponse "Hi there!")) "BOT"
        { AuthorID := "U1", ChannelID := "C1", Content := "" } = []
    ∧ messageHandler (answeringEnv (oneTextResponse "Hi there!")) "BOT"
        { AuthorID := "U1", ChannelID := "C1", Content := "/B" } = []
    ∧ messageHandler (answeringEnv (oneTextResponse "Hi there!")) "BOT"
        { AuthorID := "U1", ChannelID := "C1", Content := "/b x" } = []
    ∧ messageHandler (answeringEnv (oneTextResponse "Hi there!")) "BOT"
        { AuthorID := "U1", ChannelID := "C1", Content := " /B x" } = [] :=
  ⟨c2_no_trigger_no_call _ _ _ (by decide), c2_no_trigger_no_call _ _ _ (by decide),
    c2_no_trigger_no_call _ _ _ (by decide), c2_no_trigger_no_call _ _ _ (by decide)⟩

/-- C4 at the empty remainder and at a remainder with blanks at both ends. -/
theorem c4_prompt_is_remainder_witness :
    ("U1" : String) ≠ "BOT"
    ∧ backendCalls (messageHandler failingEnv "BOT"
        { AuthorID := "U1", ChannelID := "C1", Content := "/B " ++ "" }) = [""]
    ∧ backendCalls (messageHandler failingEnv "BOT"
        { AuthorID := "U1", ChannelID := "C1", Content := "/B " ++ "  x " }) = ["  x "] :=
  ⟨by decide, (c4_prompt_is_remainder failingEnv "BOT" "U1" "C1" "" (by decide)).2,
    (c4_prompt_is_remainder failingEnv "BOT" "U1" "C1" "  x " (by decide)).2⟩

/-- C5 at the event `"/B x"` and a backend that fails. -/
theorem c5_backend_error_witness :
    queueWrites (messageHandler failingEnv "BOT"
        { AuthorID := "U1", ChannelID := "C1", Content := "/B x" }) = []
    ∧ marshalCalls (messageHandler failingEnv "BOT"
        { AuthorID := "U1", ChannelID := "C1", Content := "/B x" }) = 0
    ∧ sends (messageHandler failingEnv "BOT"
        { AuthorID := "U1", ChannelID := "C1", Content := "/B x" })
        = [("C1", "Error generating content from Gemini.")] :=
  c5_backend_error failingEnv "BOT" { AuthorID := "U1", ChannelID := "C1", Content := "/B x" }
    "backend unavailable" (by decide) (by decide) rfl

/-- C6 at the message the producer makes of two candidates of two parts. -/
theorem c6_sends_follow_parts_witness :
    consumeMessage (marshalKafkaMessage
        { ChannelID := "C1", Content := marshalResponse twoByTwoResponse })
      = [.channelMessageSend "C1" "a", .channelMessageSend "C1" "b",
         .channelMessageSend "C1" "c", .channelMessageSend "C1" "d"] :=
  (c6_sends_follow_parts _ _ _
    (consumerDecode_producer "C1" twoByTwoResponse (by decide))).2.2.1 "a" "b" "c" "d" rfl

/-- C7 with the bot id `"BOT"`. -/
theorem c7_end_to_end_witness :
    ∃ msg kafkaMsg,
      queueWrites (messageHandler (jsonEnv (fun _ => .ok (oneTextResponse "Hi there!"))
          (fun _ => .ok ())) "BOT"
          { AuthorID := "U1", ChannelID := "C1", Content := "/B hello" }) = [msg]
      ∧ unmarshalKafkaMessage msg.Value = some kafkaMsg
      ∧ kafkaMsg.ChannelID = "C1"
      ∧ sends (messageHandler (jsonEnv (fun _ => .ok (oneTextResponse "Hi there!"))
          (fun _ => .ok ())) "BOT"
          { AuthorID := "U1", ChannelID := "C1", Content := "/B hello" }) = []
      ∧ consumeMessage msg.Value = [.channelMessageSend "C1" "Hi there!"] :=
  c7_end_to_end "BOT" (fun _ => .ok (oneTextResponse "Hi there!")) (fun _ => .ok ())
    (oneTextResponse "Hi there!") (by decide) rfl rfl (fun _ => rfl)

/-- C9 at the event `"/B hello"` with both encodings of the model. -/
theorem c9_one_write_per_command_witness :
    queueWrites (messageHandler (answeringEnv (oneTextResponse "Hi there!")) "BOT"
        { AuthorID := "U1", ChannelID := "C1", Content := "/B hello" })
      = [{ Key := none
           Value := marshalKafkaMessage
             { ChannelID := "C1", Content := marshalResponse (oneTextResponse "Hi there!") } }] :=
  (c9_one_write_per_command (answeringEnv (oneTextResponse "Hi there!")) "BOT"
    { AuthorID := "U1", ChannelID := "C1", Content := "/B hello" }
    (oneTextResponse "Hi there!") (by decide) (by decide) rfl).1 _ _ rfl rfl

/-- C10 at channel `"C1"` and the result of two candidates of two parts. -/
theorem c10_wire_format_witness :
    twoByTwoResponse.allText = true
    ∧ parseJson (marshalKafkaMessage
          { ChannelID := "C1", Content := marshalResponse twoByTwoResponse })
        = some (.obj [("channel_id", .str "C1"),
            ("content",
              .str (String.mk ((b64Encode (marshalResponse twoByTwoResponse)).map Char.ofNat)))])
    ∧ isResponseShape twoByTwoResponse.toJson = true :=
  ⟨by decide, (c10_wire_format "C1" twoByTwoResponse (by decide)).1,
    (c10_wire_format "C1" twoByTwoResponse (by decide)).2.2.2.1⟩

end GoBot
